import Mathlib

/-!
Verification of the amqplib topology manager (TypeScript) against its
natural-language specification.

The development shallowly embeds the relevant parts of the source:

* `Message.setContent` / `Message.getContent` / `Message.sendTo`
  (src/Message.ts) over a byte-level model of Node's `Buffer` (UTF-8
  codec) and of `JSON.stringify` / `JSON.parse` (restricted to integer
  numbers; IEEE-754 floats are outside the embedding).
* `Binding.id` (src/Binding.ts) and a decoder witnessing when it is
  injective.
* The `Connection` supervisor: `declareExchange` / `declareQueue`,
  both `declareTopology` variants, the reconnect loop
  (`tryToConnect` / `retryConnection` / `rebuildConnection`), `close`,
  and the close-event handler.
* `Exchange` / `Queue` lifecycle: `createExchange` / `createQueue`
  assertion outcomes, `delete` / `close` latch handling.

Promises are modelled as one-shot latches (`LatchState`), channel
activity as explicit operation lists, and the registries as association
lists keyed by name.
-/

namespace Amqp

/-! ### Byte-level model of Node's Buffer UTF-8 codec

`Buffer.from(string)` encodes UTF-8; `buffer.toString()` decodes it.
These are environment builtins consumed by `Message`; they are modelled
here executably.  The decoder is lenient (no overlong/ range checks):
for the theorems it is only ever applied to byte lists produced by the
encoder, or to concrete inputs.
-/

/-- UTF-8 encoding of a single unicode scalar value, as byte values. -/
def utf8EncodeChar (c : Char) : List Nat :=
  let n := c.toNat
  if n < 0x80 then [n]
  else if n < 0x800 then [0xC0 + n / 0x40, 0x80 + n % 0x40]
  else if n < 0x10000 then
    [0xE0 + n / 0x1000, 0x80 + (n / 0x40) % 0x40, 0x80 + n % 0x40]
  else
    [0xF0 + n / 0x40000, 0x80 + (n / 0x1000) % 0x40, 0x80 + (n / 0x40) % 0x40, 0x80 + n % 0x40]

mutual

/-- UTF-8 decoding of a byte list, `none` on truncated input. -/
def utf8Decode : List Nat → Option (List Char)
  | [] => some []
  | b :: rest =>
    if b < 0x80 then
      (utf8Decode rest).map (fun cs => Char.ofNat b :: cs)
    else if b < 0xE0 then utf8DecodeTwo b rest
    else if b < 0xF0 then utf8DecodeThree b rest
    else utf8DecodeFour b rest

/-- Continuation of `utf8Decode` after a two-byte leading byte. -/
def utf8DecodeTwo (b : Nat) : List Nat → Option (List Char)
  | b1 :: rest =>
    (utf8Decode rest).map (fun cs => Char.ofNat ((b - 0xC0) * 0x40 + (b1 - 0x80)) :: cs)
  | [] => none

/-- Continuation of `utf8Decode` after a three-byte leading byte. -/
def utf8DecodeThree (b : Nat) : List Nat → Option (List Char)
  | b1 :: b2 :: rest =>
    (utf8Decode rest).map
      (fun cs => Char.ofNat ((b - 0xE0) * 0x1000 + (b1 - 0x80) * 0x40 + (b2 - 0x80)) :: cs)
  | _ => none

/-- Continuation of `utf8Decode` after a four-byte leading byte. -/
def utf8DecodeFour (b : Nat) : List Nat → Option (List Char)
  | b1 :: b2 :: b3 :: rest =>
    (utf8Decode rest).map
      (fun cs =>
        Char.ofNat
          ((b - 0xF0) * 0x40000 + (b1 - 0x80) * 0x1000 + (b2 - 0x80) * 0x40 + (b3 - 0x80)) :: cs)
  | _ => none

end

/-- UTF-8 encoding of a whole string (model of `Buffer.from(s)`). -/
def utf8Encode (s : String) : List Nat :=
  s.data.flatMap utf8EncodeChar

theorem char_toNat_lt (c : Char) : c.toNat < 0x110000 := by
  have h := c.valid
  simp only [Char.toNat]
  rcases h with h | ⟨h1, h2⟩ <;> omega

theorem utf8Decode_encodeChar (c : Char) (rest : List Nat) :
    utf8Decode (utf8EncodeChar c ++ rest) =
      (utf8Decode rest).map (fun cs => c :: cs) := by
  have hlt := char_toNat_lt c
  rcases Nat.lt_or_ge c.toNat 0x80 with h1 | h1
  · have he : utf8EncodeChar c = [c.toNat] := by
      simp only [utf8EncodeChar]
      rw [if_pos h1]
    rw [he, List.cons_append, List.nil_append, utf8Decode]
    rw [if_pos h1, Char.ofNat_toNat]
  · rcases Nat.lt_or_ge c.toNat 0x800 with h2 | h2
    · have he : utf8EncodeChar c = [0xC0 + c.toNat / 0x40, 0x80 + c.toNat % 0x40] := by
        simp only [utf8EncodeChar]
        rw [if_neg (Nat.not_lt.mpr h1), if_pos h2]
      have hb1 : ¬0xC0 + c.toNat / 0x40 < 0x80 := Nat.not_lt.mpr (by omega)
      have hb2 : 0xC0 + c.toNat / 0x40 < 0xE0 := by omega
      rw [he, List.cons_append, List.cons_append, List.nil_append, utf8Decode]
      rw [if_neg hb1, if_pos hb2, utf8DecodeTwo]
      have harith : (0xC0 + c.toNat / 0x40 - 0xC0) * 0x40 + (0x80 + c.toNat % 0x40 - 0x80)
          = c.toNat := by omega
      rw [harith, Char.ofNat_toNat]
    · rcases Nat.lt_or_ge c.toNat 0x10000 with h3 | h3
      · have he : utf8EncodeChar c =
            [0xE0 + c.toNat / 0x1000, 0x80 + (c.toNat / 0x40) % 0x40, 0x80 + c.toNat % 0x40] := by
          simp only [utf8EncodeChar]
          rw [if_neg (Nat.not_lt.mpr h1), if_neg (Nat.not_lt.mpr h2), if_pos h3]
        have hb1 : ¬0xE0 + c.toNat / 0x1000 < 0x80 := Nat.not_lt.mpr (by omega)
        have hb2 : ¬0xE0 + c.toNat / 0x1000 < 0xE0 := Nat.not_lt.mpr (by omega)
        have hb3 : 0xE0 + c.toNat / 0x1000 < 0xF0 := by omega
        rw [he, List.cons_append, List.cons_append, List.cons_append, List.nil_append,
          utf8Decode]
        rw [if_neg hb1, if_neg hb2, if_pos hb3, utf8DecodeThree]
        have harith : (0xE0 + c.toNat / 0x1000 - 0xE0) * 0x1000 +
            (0x80 + (c.toNat / 0x40) % 0x40 - 0x80) * 0x40 + (0x80 + c.toNat % 0x40 - 0x80)
            = c.toNat := by omega
        rw [harith, Char.ofNat_toNat]
      · have he : utf8EncodeChar c =
            [0xF0 + c.toNat / 0x40000, 0x80 + (c.toNat / 0x1000) % 0x40,
              0x80 + (c.toNat / 0x40) % 0x40, 0x80 + c.toNat % 0x40] := by
          simp only [utf8EncodeChar]
          rw [if_neg (Nat.not_lt.mpr h1), if_neg (Nat.not_lt.mpr h2),
            if_neg (Nat.not_lt.mpr h3)]
        have hb1 : ¬0xF0 + c.toNat / 0x40000 < 0x80 := Nat.not_lt.mpr (by omega)
        have hb2 : ¬0xF0 + c.toNat / 0x40000 < 0xE0 := Nat.not_lt.mpr (by omega)
        have hb3 : ¬0xF0 + c.toNat / 0x40000 < 0xF0 := Nat.not_lt.mpr (by omega)
        rw [he, List.cons_append, List.cons_append, List.cons_append, List.cons_append,
          List.nil_append, utf8Decode]
        rw [if_neg hb1, if_neg hb2, if_neg hb3, utf8DecodeFour]
        have harith : (0xF0 + c.toNat / 0x40000 - 0xF0) * 0x40000 +
            (0x80 + (c.toNat / 0x1000) % 0x40 - 0x80) * 0x1000 +
            (0x80 + (c.toNat / 0x40) % 0x40 - 0x80) * 0x40 + (0x80 + c.toNat % 0x40 - 0x80)
            = c.toNat := by
          omega
        rw [harith, Char.ofNat_toNat]

theorem utf8Decode_encode_chars (cs : List Char) (rest : List Nat) :
    utf8Decode (cs.flatMap utf8EncodeChar ++ rest) =
      (utf8Decode rest).map (fun tail => cs ++ tail) := by
  induction cs with
  | nil =>
    simp
  | cons c cs ih =>
    rw [List.flatMap_cons, List.append_assoc, utf8Decode_encodeChar, ih, Option.map_map]
    rfl

/-- Round trip of the modelled Buffer codec: decoding an encoded string
recovers it exactly. -/
theorem utf8Decode_utf8Encode (s : String) :
    utf8Decode (utf8Encode s) = some s.data := by
  have h := utf8Decode_encode_chars s.data []
  simpa [utf8Encode, utf8Decode] using h

/-! ### Model of the JSON values and of `JSON.stringify` / `JSON.parse`

`Message.setContent` serializes non-string, non-Buffer values with
`JSON.stringify`, and `Message.getContent` deserializes with
`JSON.parse`; both are environment builtins, modelled executably here.
Numbers are restricted to integers (IEEE-754 floats are outside the
embedding), and the parser accepts exactly the canonical form the
serializer emits (whitespace skipping is omitted, which no claim
exercises).
-/

/-- JSON-serializable values, with numbers restricted to integers. -/
inductive Json where
  | null : Json
  | bool (b : Bool) : Json
  | num (n : Int) : Json
  | str (s : String) : Json
  | arr (xs : List Json) : Json
  | obj (kvs : List (String × Json)) : Json

/-- Decimal digit character for a value below ten. -/
def digitChar (n : Nat) : Char := Char.ofNat (48 + n)

/-- Decimal representation of a natural number, most significant digit first. -/
def natChars (n : Nat) : List Char :=
  if _h : n < 10 then [digitChar n]
  else (natChars (n / 10)).concat (digitChar (n % 10))
termination_by n
decreasing_by exact Nat.div_lt_self (by omega) (by omega)

/-- Decimal representation of an integer. -/
def intChars (n : Int) : List Char :=
  if n < 0 then '-' :: natChars n.natAbs else natChars n.natAbs

/-- Lower-case hexadecimal digit character for a value below sixteen. -/
def hexChar (n : Nat) : Char := Char.ofNat (if n < 10 then 48 + n else 87 + n)

/-- Escape of a single character inside a JSON string literal, as
`JSON.stringify` produces it. -/
def escChar (c : Char) : List Char :=
  if c = '"' then ['\\', '"']
  else if c = '\\' then ['\\', '\\']
  else if c.toNat = 8 then ['\\', 'b']
  else if c.toNat = 9 then ['\\', 't']
  else if c.toNat = 10 then ['\\', 'n']
  else if c.toNat = 12 then ['\\', 'f']
  else if c.toNat = 13 then ['\\', 'r']
  else if c.toNat < 0x20 then
    '\\' :: 'u' :: '0' :: '0' :: [hexChar (c.toNat / 16), hexChar (c.toNat % 16)]
  else [c]

/-- JSON string literal for a string, quotes included. -/
def strChars (s : String) : List Char :=
  '"' :: s.data.flatMap escChar ++ ['"']

mutual

/-- Characters of `JSON.stringify` of a value. -/
def printJson : Json → List Char
  | .null => "null".data
  | .bool true => "true".data
  | .bool false => "false".data
  | .num n => intChars n
  | .str s => strChars s
  | .arr [] => ['[', ']']
  | .arr (x :: xs) => '[' :: (printJson x ++ printArrTail xs) ++ [']']
  | .obj [] => ['{', '}']
  | .obj (kv :: kvs) => '{' :: (printEntry kv ++ printObjTail kvs) ++ ['}']

/-- Remaining array elements, each preceded by a comma. -/
def printArrTail : List Json → List Char
  | x :: xs => ',' :: (printJson x ++ printArrTail xs)
  | [] => []

/-- One object entry: quoted key, colon, value. -/
def printEntry : String × Json → List Char
  | (k, v) => strChars k ++ ':' :: printJson v

/-- Remaining object entries, each preceded by a comma. -/
def printObjTail : List (String × Json) → List Char
  | kv :: kvs => ',' :: (printEntry kv ++ printObjTail kvs)
  | [] => []

end

/-- Decimal digit test on a character. -/
def isDigitChar (c : Char) : Bool := decide (48 ≤ c.toNat) && decide (c.toNat ≤ 57)

/-- Numeric value of a decimal digit character. -/
def digitVal (c : Char) : Nat := c.toNat - 48

/-- Split a maximal run of leading decimal digits off a character list. -/
def takeDigits : List Char → List Char × List Char
  | [] => ([], [])
  | c :: rest =>
    if isDigitChar c then
      let p := takeDigits rest
      (c :: p.1, p.2)
    else ([], c :: rest)

/-- Value of a digit run, most significant digit first. -/
def digitsVal (l : List Char) : Nat :=
  l.foldl (fun a c => a * 10 + digitVal c) 0

/-- Parse a nonempty run of decimal digits into a natural number. -/
def parseNat (l : List Char) : Option (Nat × List Char) :=
  let p := takeDigits l
  if p.1 = [] then none else some (digitsVal p.1, p.2)

/-- Numeric value of a hexadecimal digit character. -/
def hexVal (c : Char) : Option Nat :=
  if 48 ≤ c.toNat ∧ c.toNat ≤ 57 then some (c.toNat - 48)
  else if 97 ≤ c.toNat ∧ c.toNat ≤ 102 then some (c.toNat - 87)
  else if 65 ≤ c.toNat ∧ c.toNat ≤ 70 then some (c.toNat - 55)
  else none

/-- Consume one expected character. -/
def expectChar (c : Char) : List Char → Option (List Char)
  | x :: rest => if x = c then some rest else none
  | [] => none

/-- Consume an expected character sequence. -/
def expectChars : List Char → List Char → Option (List Char)
  | [], l => some l
  | k :: ks, l => (expectChar k l).bind (expectChars ks)

mutual

/-- Parse the body of a JSON string literal (after the opening quote),
returning the decoded characters and the input after the closing quote. -/
def parseStringChars : List Char → Option (List Char × List Char)
  | [] => none
  | c :: rest =>
    if c = '"' then some ([], rest)
    else if c = '\\' then parseEscape rest
    else (parseStringChars rest).map (fun p => (c :: p.1, p.2))

/-- Parse a string escape (after the backslash). -/
def parseEscape : List Char → Option (List Char × List Char)
  | [] => none
  | e :: rest =>
    if e = '"' then (parseStringChars rest).map (fun p => ('"' :: p.1, p.2))
    else if e = '\\' then (parseStringChars rest).map (fun p => ('\\' :: p.1, p.2))
    else if e = 'b' then (parseStringChars rest).map (fun p => (Char.ofNat 8 :: p.1, p.2))
    else if e = 't' then (parseStringChars rest).map (fun p => (Char.ofNat 9 :: p.1, p.2))
    else if e = 'n' then (parseStringChars rest).map (fun p => (Char.ofNat 10 :: p.1, p.2))
    else if e = 'f' then (parseStringChars rest).map (fun p => (Char.ofNat 12 :: p.1, p.2))
    else if e = 'r' then (parseStringChars rest).map (fun p => (Char.ofNat 13 :: p.1, p.2))
    else if e = 'u' then parseHexEscape rest
    else none

/-- Parse the four hex digits of a unicode escape. -/
def parseHexEscape : List Char → Option (List Char × List Char)
  | h1 :: h2 :: h3 :: h4 :: rest =>
    match hexVal h1, hexVal h2, hexVal h3, hexVal h4 with
    | some a, some b, some c, some d =>
      (parseStringChars rest).map
        (fun p => (Char.ofNat (((a * 16 + b) * 16 + c) * 16 + d) :: p.1, p.2))
    | _, _, _, _ => none
  | _ => none

end

mutual

/-- Fuel-indexed recursive-descent parser for the canonical JSON form
produced by `printJson`.  The fuel only bounds recursion depth; the
wrapper `jsonParse` supplies enough for any input. -/
def parseValue : Nat → List Char → Option (Json × List Char)
  | 0, _ => none
  | _ + 1, [] => none
  | fuel + 1, c :: rest =>
    if c = 'n' then (expectChars ['u', 'l', 'l'] rest).map (fun r => (Json.null, r))
    else if c = 't' then (expectChars ['r', 'u', 'e'] rest).map (fun r => (Json.bool true, r))
    else if c = 'f' then
      (expectChars ['a', 'l', 's', 'e'] rest).map (fun r => (Json.bool false, r))
    else if c = '"' then (parseStringChars rest).map (fun p => (Json.str ⟨p.1⟩, p.2))
    else if c = '[' then parseArrBody fuel rest
    else if c = '{' then parseObjBody fuel rest
    else if c = '-' then (parseNat rest).map (fun p => (Json.num (-(p.1 : Int)), p.2))
    else if isDigitChar c then (parseNat (c :: rest)).map (fun p => (Json.num (p.1 : Int), p.2))
    else none
termination_by fuel _ => 3 * fuel

/-- Continuation after an opening bracket: empty array or element list. -/
def parseArrBody : Nat → List Char → Option (Json × List Char)
  | _, [] => none
  | fuel, c2 :: rest2 =>
    if c2 = ']' then some (Json.arr [], rest2)
    else (parseArrElems fuel (c2 :: rest2)).map (fun p => (Json.arr p.1, p.2))
termination_by fuel _ => 3 * fuel + 2

/-- Continuation after an opening brace: empty object or entry list. -/
def parseObjBody : Nat → List Char → Option (Json × List Char)
  | _, [] => none
  | fuel, c2 :: rest2 =>
    if c2 = '}' then some (Json.obj [], rest2)
    else (parseObjElems fuel (c2 :: rest2)).map (fun p => (Json.obj p.1, p.2))
termination_by fuel _ => 3 * fuel + 2

/-- Parse one or more comma-separated array elements up to the closing
bracket. -/
def parseArrElems : Nat → List Char → Option (List Json × List Char)
  | 0, _ => none
  | fuel + 1, input =>
    (parseValue fuel input).bind (fun vp => parseArrAfterValue fuel vp.1 vp.2)
termination_by fuel _ => 3 * fuel + 1

/-- Continuation after one array element: comma or closing bracket. -/
def parseArrAfterValue : Nat → Json → List Char → Option (List Json × List Char)
  | _, _, [] => none
  | fuel, v, c :: rest2 =>
    if c = ',' then (parseArrElems fuel rest2).map (fun p => (v :: p.1, p.2))
    else if c = ']' then some ([v], rest2)
    else none
termination_by fuel _ _ => 3 * fuel + 2

/-- Parse one or more comma-separated object entries up to the closing
brace. -/
def parseObjElems : Nat → List Char → Option (List (String × Json) × List Char)
  | 0, _ => none
  | fuel + 1, input =>
    (expectChar '"' input).bind (fun r1 =>
      (parseStringChars r1).bind (fun kp =>
        (expectChar ':' kp.2).bind (fun r3 =>
          (parseValue fuel r3).bind (fun vp =>
            parseObjAfterValue fuel kp.1 vp.1 vp.2))))
termination_by fuel _ => 3 * fuel + 1

/-- Continuation after one object entry: comma or closing brace. -/
def parseObjAfterValue : Nat → List Char → Json → List Char →
    Option (List (String × Json) × List Char)
  | _, _, _, [] => none
  | fuel, k, v, c :: r5 =>
    if c = ',' then (parseObjElems fuel r5).map (fun p => ((⟨k⟩, v) :: p.1, p.2))
    else if c = '}' then some ([(⟨k⟩, v)], r5)
    else none
termination_by fuel _ _ _ => 3 * fuel + 2

end

/-- Characters of `JSON.stringify`, as a string. -/
def jsonStringify (v : Json) : String := ⟨printJson v⟩

/-- Model of `JSON.parse`: parse a complete value, rejecting trailing
input.  The fuel argument `2 * length + 2` always suffices (every
recursive call consumes input). -/
def jsonParse (s : String) : Option Json :=
  match parseValue (2 * s.data.length + 2) s.data with
  | some (v, []) => some v
  | _ => none

/-- Test that the input does not continue with a decimal digit (used to
delimit number parses). -/
def headNotDigit : List Char → Bool
  | c :: _ => !isDigitChar c
  | [] => true

theorem digitChar_toNat (n : Nat) (h : n < 10) : (digitChar n).toNat = 48 + n := by
  interval_cases n <;> decide

theorem isDigitChar_digitChar (n : Nat) (h : n < 10) : isDigitChar (digitChar n) = true := by
  interval_cases n <;> decide

theorem digitVal_digitChar (n : Nat) (h : n < 10) : digitVal (digitChar n) = n := by
  interval_cases n <;> decide

theorem hexVal_hexChar (n : Nat) (h : n < 16) : hexVal (hexChar n) = some n := by
  interval_cases n <;> decide

theorem natChars_ne_nil (n : Nat) : natChars n ≠ [] := by
  rw [natChars]
  split
  · exact List.cons_ne_nil _ _
  · rw [List.concat_eq_append]
    exact List.append_ne_nil_of_right_ne_nil _ (List.cons_ne_nil _ _)

theorem natChars_digits (n : Nat) : ∀ c ∈ natChars n, isDigitChar c = true := by
  refine Nat.strong_induction_on n ?_
  intro n ih
  rw [natChars]
  split
  · intro c hc
    rcases List.mem_singleton.mp hc with rfl
    exact isDigitChar_digitChar n (by omega)
  · intro c hc
    have hlt : n / 10 < n := by omega
    rw [List.concat_eq_append] at hc
    rcases List.mem_append.mp hc with hc | hc
    · exact ih (n / 10) hlt c hc
    · rcases List.mem_singleton.mp hc with rfl
      exact isDigitChar_digitChar _ (Nat.mod_lt _ (by omega))

theorem digitsVal_append_digit (l : List Char) (d : Char) :
    digitsVal (l ++ [d]) = digitsVal l * 10 + digitVal d := by
  simp [digitsVal, List.foldl_append]

theorem digitsVal_natChars (n : Nat) : digitsVal (natChars n) = n := by
  refine Nat.strong_induction_on n ?_
  intro n ih
  rw [natChars]
  split
  · next h =>
    simp [digitsVal, digitVal_digitChar n h]
  · next h =>
    have hlt : n / 10 < n := by omega
    rw [List.concat_eq_append, digitsVal_append_digit, ih (n / 10) hlt,
      digitVal_digitChar _ (Nat.mod_lt _ (by omega))]
    omega

theorem takeDigits_split (digits tail : List Char)
    (hdig : ∀ c ∈ digits, isDigitChar c = true) (htail : headNotDigit tail = true) :
    takeDigits (digits ++ tail) = (digits, tail) := by
  induction digits with
  | nil =>
    simp only [List.nil_append]
    cases tail with
    | nil => rfl
    | cons c r =>
      simp only [headNotDigit, Bool.not_eq_true'] at htail
      rw [takeDigits, if_neg (by simp [htail])]
  | cons c digits ih =>
    have hc : isDigitChar c = true := hdig c (List.mem_cons_self _ _)
    rw [List.cons_append, takeDigits, if_pos hc,
      ih (fun x hx => hdig x (List.mem_cons_of_mem _ hx))]

theorem parseNat_natChars (n : Nat) (rest : List Char) (hrest : headNotDigit rest = true) :
    parseNat (natChars n ++ rest) = some (n, rest) := by
  rw [parseNat, takeDigits_split _ _ (natChars_digits n) hrest]
  simp [natChars_ne_nil n, digitsVal_natChars n]

theorem parseStringChars_escape (cs rest : List Char) :
    parseStringChars (cs.flatMap escChar ++ '"' :: rest) = some (cs, rest) := by
  induction cs with
  | nil => simp [parseStringChars]
  | cons c cs ih =>
    rw [List.flatMap_cons, List.append_assoc]
    by_cases h1 : c = '"'
    · subst h1
      rw [show escChar '"' = ['\\', '"'] from rfl]
      simp [parseStringChars, parseEscape, ih]
    · by_cases h2 : c = '\\'
      · subst h2
        rw [show escChar '\\' = ['\\', '\\'] from rfl]
        simp [parseStringChars, parseEscape, ih]
      · by_cases h3 : c.toNat = 8
        · have hc : Char.ofNat 8 = c := by rw [← h3, Char.ofNat_toNat]
          have he : escChar c = ['\\', 'b'] := by
            rw [escChar, if_neg h1, if_neg h2, if_pos h3]
          rw [he]
          simp [parseStringChars, parseEscape, ih, hc]
          exact hc
        · by_cases h4 : c.toNat = 9
          · have hc : Char.ofNat 9 = c := by rw [← h4, Char.ofNat_toNat]
            have he : escChar c = ['\\', 't'] := by
              rw [escChar, if_neg h1, if_neg h2, if_neg h3, if_pos h4]
            rw [he]
            simp [parseStringChars, parseEscape, ih, hc]
            exact hc
          · by_cases h5 : c.toNat = 10
            · have hc : Char.ofNat 10 = c := by rw [← h5, Char.ofNat_toNat]
              have he : escChar c = ['\\', 'n'] := by
                rw [escChar, if_neg h1, if_neg h2, if_neg h3, if_neg h4, if_pos h5]
              rw [he]
              simp [parseStringChars, parseEscape, ih, hc]
              exact hc
            · by_cases h6 : c.toNat = 12
              · have hc : Char.ofNat 12 = c := by rw [← h6, Char.ofNat_toNat]
                have he : escChar c = ['\\', 'f'] := by
                  rw [escChar, if_neg h1, if_neg h2, if_neg h3, if_neg h4, if_neg h5, if_pos h6]
                rw [he]
                simp [parseStringChars, parseEscape, ih, hc]
                exact hc
              · by_cases h7 : c.toNat = 13
                · have hc : Char.ofNat 13 = c := by rw [← h7, Char.ofNat_toNat]
                  have he : escChar c = ['\\', 'r'] := by
                    rw [escChar, if_neg h1, if_neg h2, if_neg h3, if_neg h4, if_neg h5,
                      if_neg h6, if_pos h7]
                  rw [he]
                  simp [parseStringChars, parseEscape, ih, hc]
                  exact hc
                · by_cases h8 : c.toNat < 0x20
                  · have he : escChar c =
                        '\\' :: 'u' :: '0' :: '0' ::
                          [hexChar (c.toNat / 16), hexChar (c.toNat % 16)] := by
                      rw [escChar, if_neg h1, if_neg h2, if_neg h3, if_neg h4, if_neg h5,
                        if_neg h6, if_neg h7, if_pos h8]
                    have hhi : hexVal (hexChar (c.toNat / 16)) = some (c.toNat / 16) :=
                      hexVal_hexChar _ (by omega)
                    have hlo : hexVal (hexChar (c.toNat % 16)) = some (c.toNat % 16) :=
                      hexVal_hexChar _ (by omega)
                    have hval : c.toNat
                        = ((0 * 16 + 0) * 16 + c.toNat / 16) * 16 + c.toNat % 16 := by
                      omega
                    rw [he]
                    simp only [List.cons_append, List.nil_append]
                    rw [parseStringChars, if_neg (by decide), if_pos rfl, parseEscape]
                    rw [if_neg (by decide), if_neg (by decide), if_neg (by decide),
                      if_neg (by decide), if_neg (by decide), if_neg (by decide),
                      if_neg (by decide), if_pos rfl, parseHexEscape]
                    rw [show hexVal '0' = some 0 from rfl, hhi, hlo]
                    simp only []
                    rw [ih, ← hval, Char.ofNat_toNat]
                    rfl
                  · have he : escChar c = [c] := by
                      rw [escChar, if_neg h1, if_neg h2, if_neg h3, if_neg h4, if_neg h5,
                        if_neg h6, if_neg h7, if_neg h8]
                    rw [he, List.singleton_append, parseStringChars, if_neg h1, if_neg h2, ih]
                    rfl

mutual

/-- Fuel requirement of `parseValue` on the canonical printed form of a
value. -/
def jsonNeed : Json → Nat
  | .arr xs => 1 + jsonNeedList xs
  | .obj kvs => 1 + jsonNeedEntries kvs
  | _ => 1

/-- Fuel requirement of `parseArrElems` on printed array elements. -/
def jsonNeedList : List Json → Nat
  | [] => 0
  | x :: xs => 1 + jsonNeed x + jsonNeedList xs

/-- Fuel requirement of `parseObjElems` on printed object entries. -/
def jsonNeedEntries : List (String × Json) → Nat
  | [] => 0
  | kv :: kvs => 1 + jsonNeed kv.2 + jsonNeedEntries kvs

end

theorem jsonNeed_pos (v : Json) : 1 ≤ jsonNeed v := by
  cases v <;> simp [jsonNeed]

theorem digit_ne_aux {c d : Char} (h : isDigitChar c = true)
    (hd : isDigitChar d = false) : c ≠ d := by
  intro he
  rw [he, hd] at h
  exact Bool.noConfusion h

theorem isDigitChar_ne (c : Char) (h : isDigitChar c = true) :
    c ≠ 'n' ∧ c ≠ ']' ∧ c ≠ 't' ∧ c ≠ '}' ∧ c ≠ 'f' ∧ c ≠ ',' ∧ c ≠ '"' ∧
      c ≠ '-' ∧ c ≠ '[' ∧ c ≠ '{' :=
  ⟨digit_ne_aux h (by decide), digit_ne_aux h (by decide), digit_ne_aux h (by decide),
   digit_ne_aux h (by decide), digit_ne_aux h (by decide), digit_ne_aux h (by decide),
   digit_ne_aux h (by decide), digit_ne_aux h (by decide), digit_ne_aux h (by decide),
   digit_ne_aux h (by decide)⟩

theorem natChars_cons (n : Nat) :
    ∃ c t, natChars n = c :: t ∧ isDigitChar c = true := by
  obtain ⟨c, t, h⟩ := List.exists_cons_of_ne_nil (natChars_ne_nil n)
  exact ⟨c, t, h, natChars_digits n c (by rw [h]; exact List.mem_cons_self _ _)⟩

theorem printJson_head (v : Json) :
    ∃ c t, printJson v = c :: t ∧
      (c ∈ ['n', 't', 'f', '"', '[', '{', '-'] ∨ isDigitChar c = true) := by
  cases v with
  | null => exact ⟨'n', "ull".data, by rw [printJson], Or.inl (by decide)⟩
  | bool b =>
    rcases b with _ | _
    · exact ⟨'f', "alse".data, by rw [printJson], Or.inl (by decide)⟩
    · exact ⟨'t', "rue".data, by rw [printJson], Or.inl (by decide)⟩
  | num n =>
    by_cases hn : n < 0
    · exact ⟨'-', natChars n.natAbs, by simp [printJson, intChars, if_pos hn],
        Or.inl (by decide)⟩
    · obtain ⟨c, t, hct, hcd⟩ := natChars_cons n.natAbs
      exact ⟨c, t, by simp [printJson, intChars, if_neg hn, hct], Or.inr hcd⟩
  | str s =>
    exact ⟨'"', s.data.flatMap escChar ++ ['"'], by simp [printJson, strChars],
      Or.inl (by decide)⟩
  | arr xs =>
    cases xs with
    | nil => exact ⟨'[', [']'], by simp [printJson], Or.inl (by decide)⟩
    | cons x xs =>
      exact ⟨'[', (printJson x ++ printArrTail xs) ++ [']'], by simp [printJson],
        Or.inl (by decide)⟩
  | obj kvs =>
    cases kvs with
    | nil => exact ⟨'{', ['}'], by simp [printJson], Or.inl (by decide)⟩
    | cons kv kvs =>
      exact ⟨'{', (printEntry kv ++ printObjTail kvs) ++ ['}'], by simp [printJson],
        Or.inl (by decide)⟩

theorem startChar_ne_close (c : Char)
    (h : c ∈ ['n', 't', 'f', '"', '[', '{', '-'] ∨ isDigitChar c = true) :
    c ≠ ']' ∧ c ≠ '}' := by
  rcases h with hmem | hd
  · fin_cases hmem <;> exact ⟨by decide, by decide⟩
  · obtain ⟨_, h8, _, h9, _⟩ := isDigitChar_ne c hd
    exact ⟨h8, h9⟩

theorem parseValue_nullKw (f : Nat) (rest : List Char) :
    parseValue (f + 1) ('n' :: 'u' :: 'l' :: 'l' :: rest) = some (Json.null, rest) := by
  rw [parseValue, if_pos rfl]
  simp [expectChars, expectChar]

theorem parseValue_trueKw (f : Nat) (rest : List Char) :
    parseValue (f + 1) ('t' :: 'r' :: 'u' :: 'e' :: rest) = some (Json.bool true, rest) := by
  rw [parseValue, if_neg (by decide), if_pos rfl]
  simp [expectChars, expectChar]

theorem parseValue_falseKw (f : Nat) (rest : List Char) :
    parseValue (f + 1) ('f' :: 'a' :: 'l' :: 's' :: 'e' :: rest)
      = some (Json.bool false, rest) := by
  rw [parseValue, if_neg (by decide), if_neg (by decide), if_pos rfl]
  simp [expectChars, expectChar]

theorem parseValue_quote (f : Nat) (rest : List Char) :
    parseValue (f + 1) ('"' :: rest)
      = (parseStringChars rest).map (fun p => (Json.str ⟨p.1⟩, p.2)) := by
  rw [parseValue, if_neg (by decide), if_neg (by decide), if_neg (by decide), if_pos rfl]

theorem parseValue_lbracket_empty (f : Nat) (rest : List Char) :
    parseValue (f + 1) ('[' :: ']' :: rest) = some (Json.arr [], rest) := by
  rw [parseValue, if_neg (by decide), if_neg (by decide), if_neg (by decide),
    if_neg (by decide), if_pos rfl]
  rw [parseArrBody, if_pos rfl]

theorem parseValue_lbracket (f : Nat) (c : Char) (tail : List Char) (h : c ≠ ']') :
    parseValue (f + 1) ('[' :: c :: tail)
      = (parseArrElems f (c :: tail)).map (fun p => (Json.arr p.1, p.2)) := by
  rw [parseValue, if_neg (by decide), if_neg (by decide), if_neg (by decide),
    if_neg (by decide), if_pos rfl]
  rw [parseArrBody, if_neg h]

theorem parseValue_lbrace_empty (f : Nat) (rest : List Char) :
    parseValue (f + 1) ('{' :: '}' :: rest) = some (Json.obj [], rest) := by
  rw [parseValue, if_neg (by decide), if_neg (by decide), if_neg (by decide),
    if_neg (by decide), if_neg (by decide), if_pos rfl]
  rw [parseObjBody, if_pos rfl]

theorem parseValue_lbrace (f : Nat) (c : Char) (tail : List Char) (h : c ≠ '}') :
    parseValue (f + 1) ('{' :: c :: tail)
      = (parseObjElems f (c :: tail)).map (fun p => (Json.obj p.1, p.2)) := by
  rw [parseValue, if_neg (by decide), if_neg (by decide), if_neg (by decide),
    if_neg (by decide), if_neg (by decide), if_pos rfl]
  rw [parseObjBody, if_neg h]

theorem parseValue_minus (f : Nat) (rest : List Char) :
    parseValue (f + 1) ('-' :: rest)
      = (parseNat rest).map (fun p => (Json.num (-(p.1 : Int)), p.2)) := by
  rw [parseValue, if_neg (by decide), if_neg (by decide), if_neg (by decide),
    if_neg (by decide), if_neg (by decide), if_neg (by decide), if_pos rfl]

theorem parseValue_digit (f : Nat) (c : Char) (rest : List Char) (h : isDigitChar c = true) :
    parseValue (f + 1) (c :: rest)
      = (parseNat (c :: rest)).map (fun p => (Json.num (p.1 : Int), p.2)) := by
  obtain ⟨h1, _, h2, _, h3, _, h4, h7, h5, h6⟩ := isDigitChar_ne c h
  rw [parseValue, if_neg h1, if_neg h2, if_neg h3, if_neg h4, if_neg h5, if_neg h6,
    if_neg h7, if_pos h]

theorem printEntry_explode (k : String) (v : Json) (X : List Char) :
    printEntry (k, v) ++ X
      = '"' :: (k.data.flatMap escChar ++ ('"' :: ':' :: (printJson v ++ X))) := by
  simp [printEntry, strChars]

theorem parsePrint_main : ∀ fuel : Nat,
    (∀ v rest, jsonNeed v ≤ fuel → headNotDigit rest = true →
      parseValue fuel (printJson v ++ rest) = some (v, rest)) ∧
    (∀ x xs rest, jsonNeedList (x :: xs) ≤ fuel → headNotDigit rest = true →
      parseArrElems fuel (printJson x ++ (printArrTail xs ++ ']' :: rest))
        = some (x :: xs, rest)) ∧
    (∀ k v kvs rest, jsonNeedEntries ((k, v) :: kvs) ≤ fuel → headNotDigit rest = true →
      parseObjElems fuel (printEntry (k, v) ++ (printObjTail kvs ++ '}' :: rest))
        = some ((k, v) :: kvs, rest)) := by
  intro fuel
  induction fuel with
  | zero =>
    refine ⟨?_, ?_, ?_⟩
    · intro v rest hf _
      exact absurd (le_trans (jsonNeed_pos v) hf) (by omega)
    · intro x xs rest hf _
      exfalso
      have heq : jsonNeedList (x :: xs) = 1 + jsonNeed x + jsonNeedList xs := by
        simp [jsonNeedList]
      omega
    · intro k v kvs rest hf _
      exfalso
      have heq : jsonNeedEntries ((k, v) :: kvs) = 1 + jsonNeed v + jsonNeedEntries kvs := by
        simp [jsonNeedEntries]
      omega
  | succ f ih =>
    obtain ⟨ihv, iha, iho⟩ := ih
    refine ⟨?_, ?_, ?_⟩
    · intro v rest hf hr
      cases v with
      | null =>
        rw [show printJson Json.null = ['n', 'u', 'l', 'l'] from by rw [printJson]]
        simp only [List.cons_append, List.nil_append]
        exact parseValue_nullKw f rest
      | bool b =>
        cases b with
        | true =>
          rw [show printJson (Json.bool true) = ['t', 'r', 'u', 'e'] from by
            rw [printJson]]
          simp only [List.cons_append, List.nil_append]
          exact parseValue_trueKw f rest
        | false =>
          rw [show printJson (Json.bool false) = ['f', 'a', 'l', 's', 'e'] from by
            rw [printJson]]
          simp only [List.cons_append, List.nil_append]
          exact parseValue_falseKw f rest
      | num n =>
        rcases Int.lt_or_le n 0 with hn | hn
        · have hp : printJson (Json.num n) = '-' :: natChars n.natAbs := by
            simp [printJson, intChars, hn]
          rw [hp, List.cons_append, parseValue_minus, parseNat_natChars _ _ hr]
          simp only [Option.map_some']
          have hcast : -((n.natAbs : Nat) : Int) = n := by omega
          rw [hcast]
        · obtain ⟨c, t, hct, hcd⟩ := natChars_cons n.natAbs
          have h0 : ¬n < 0 := by omega
          have hp : printJson (Json.num n) = natChars n.natAbs := by
            simp [printJson, intChars, h0]
          rw [hp, hct, List.cons_append, parseValue_digit f c _ hcd]
          rw [show c :: (t ++ rest) = (c :: t) ++ rest from rfl, ← hct,
            parseNat_natChars _ _ hr]
          simp only [Option.map_some']
          have hcast : ((n.natAbs : Nat) : Int) = n := by omega
          rw [hcast]
      | str s =>
        have hp : printJson (Json.str s) ++ rest
            = '"' :: (s.data.flatMap escChar ++ '"' :: rest) := by
          simp [printJson, strChars]
        rw [hp, parseValue_quote, parseStringChars_escape]
        rfl
      | arr xs =>
        cases xs with
        | nil =>
          rw [show printJson (Json.arr []) = ['[', ']'] from by simp [printJson]]
          simp only [List.cons_append, List.nil_append]
          exact parseValue_lbracket_empty f rest
        | cons x xs =>
          have hf' : jsonNeedList (x :: xs) ≤ f := by
            have heq : jsonNeed (Json.arr (x :: xs)) = 1 + jsonNeedList (x :: xs) := by
              simp [jsonNeed]
            omega
          obtain ⟨c, t, hct, hcs⟩ := printJson_head x
          obtain ⟨hne1, _⟩ := startChar_ne_close c hcs
          have hp : printJson (Json.arr (x :: xs)) ++ rest
              = '[' :: (printJson x ++ (printArrTail xs ++ ']' :: rest)) := by
            simp [printJson]
          rw [hp, hct]
          simp only [List.cons_append]
          rw [parseValue_lbracket f c _ hne1]
          rw [show c :: (t ++ (printArrTail xs ++ ']' :: rest))
              = printJson x ++ (printArrTail xs ++ ']' :: rest) from by rw [hct]; rfl]
          rw [iha x xs rest hf' hr]
          rfl
      | obj kvs =>
        cases kvs with
        | nil =>
          rw [show printJson (Json.obj []) = ['{', '}'] from by simp [printJson]]
          simp only [List.cons_append, List.nil_append]
          exact parseValue_lbrace_empty f rest
        | cons kv kvs =>
          obtain ⟨k, v⟩ := kv
          have hf' : jsonNeedEntries ((k, v) :: kvs) ≤ f := by
            have heq : jsonNeed (Json.obj ((k, v) :: kvs))
                = 1 + jsonNeedEntries ((k, v) :: kvs) := by
              simp [jsonNeed]
            omega
          have hp : printJson (Json.obj ((k, v) :: kvs)) ++ rest
              = '{' :: (printEntry (k, v) ++ (printObjTail kvs ++ '}' :: rest)) := by
            simp [printJson]
          rw [hp, printEntry_explode]
          rw [parseValue_lbrace f '"' _ (by decide)]
          rw [← printEntry_explode]
          rw [iho k v kvs rest hf' hr]
          rfl
    · intro x xs rest hf hr
      have heq : jsonNeedList (x :: xs) = 1 + jsonNeed x + jsonNeedList xs := by
        simp [jsonNeedList]
      have hfx : jsonNeed x ≤ f := by omega
      cases xs with
      | nil =>
        have hx := ihv x (']' :: rest) hfx (by rfl)
        rw [show printArrTail ([] : List Json) ++ ']' :: rest = ']' :: rest from by
          simp [printArrTail]]
        rw [parseArrElems, hx, Option.bind]
        rw [parseArrAfterValue, if_neg (by decide), if_pos rfl]
      | cons y ys =>
        have hfy : jsonNeedList (y :: ys) ≤ f := by
          have heq2 : jsonNeedList (x :: y :: ys)
              = 1 + jsonNeed x + jsonNeedList (y :: ys) := by
            simp [jsonNeedList]
          omega
        have hx := ihv x (',' :: (printJson y ++ (printArrTail ys ++ ']' :: rest))) hfx (by rfl)
        rw [show printArrTail (y :: ys) ++ ']' :: rest
            = ',' :: (printJson y ++ (printArrTail ys ++ ']' :: rest)) from by
          simp [printArrTail]]
        rw [parseArrElems, hx, Option.bind]
        rw [parseArrAfterValue, if_pos rfl]
        rw [iha y ys rest hfy hr]
        rfl
    · intro k v kvs rest hf hr
      have heq : jsonNeedEntries ((k, v) :: kvs) = 1 + jsonNeed v + jsonNeedEntries kvs := by
        simp [jsonNeedEntries]
      have hfv : jsonNeed v ≤ f := by omega
      have hkvs : jsonNeedEntries kvs ≤ f := by omega
      rw [printEntry_explode, parseObjElems]
      rw [expectChar, if_pos rfl, Option.bind]
      rw [parseStringChars_escape k.data
        (':' :: (printJson v ++ (printObjTail kvs ++ '}' :: rest)))]
      rw [Option.bind]
      rw [expectChar, if_pos rfl, Option.bind]
      cases kvs with
      | nil =>
        have hx := ihv v ('}' :: rest) hfv (by rfl)
        rw [show printObjTail ([] : List (String × Json)) ++ '}' :: rest = '}' :: rest from by
          simp [printObjTail]]
        rw [hx, Option.bind]
        rw [parseObjAfterValue, if_neg (by decide), if_pos rfl]
      | cons kv2 kvs2 =>
        obtain ⟨k2, v2⟩ := kv2
        have hx := ihv v
          (',' :: (printEntry (k2, v2) ++ (printObjTail kvs2 ++ '}' :: rest))) hfv (by rfl)
        rw [show printObjTail ((k2, v2) :: kvs2) ++ '}' :: rest
            = ',' :: (printEntry (k2, v2) ++ (printObjTail kvs2 ++ '}' :: rest)) from by
          simp [printObjTail]]
        rw [hx, Option.bind]
        rw [parseObjAfterValue, if_pos rfl]
        rw [iho k2 v2 kvs2 rest hkvs hr]
        rfl

theorem parseValue_print (v : Json) (fuel : Nat) (rest : List Char)
    (hf : jsonNeed v ≤ fuel) (hr : headNotDigit rest = true) :
    parseValue fuel (printJson v ++ rest) = some (v, rest) :=
  (parsePrint_main fuel).1 v rest hf hr

theorem jsonNeed_le_aux : ∀ N : Nat,
    (∀ v : Json, sizeOf v ≤ N → jsonNeed v ≤ 2 * (printJson v).length) ∧
    (∀ xs : List Json, sizeOf xs ≤ N →
      jsonNeedList xs ≤ 2 * (printArrTail xs).length + 1) ∧
    (∀ kvs : List (String × Json), sizeOf kvs ≤ N →
      jsonNeedEntries kvs ≤ 2 * (printObjTail kvs).length + 1) := by
  intro N
  induction N with
  | zero =>
    refine ⟨?_, ?_, ?_⟩
    · intro v hv
      exfalso
      cases v <;> simp at hv
    · intro xs hxs
      exfalso
      cases xs <;> simp at hxs
    · intro kvs hkvs
      exfalso
      cases kvs <;> simp at hkvs
  | succ N ih =>
    obtain ⟨ihP, ihQ, ihR⟩ := ih
    have natLen : ∀ m : Nat, 1 ≤ (natChars m).length := by
      intro m
      exact List.length_pos.mpr (natChars_ne_nil m)
    refine ⟨?_, ?_, ?_⟩
    · intro v hv
      cases v with
      | null => simp [jsonNeed, printJson]
      | bool b => cases b <;> simp [jsonNeed, printJson]
      | num n =>
        rcases Int.lt_or_le n 0 with hn | hn
        · have hp : printJson (Json.num n) = '-' :: natChars n.natAbs := by
            simp [printJson, intChars, hn]
          have := natLen n.natAbs
          simp [jsonNeed, hp]
          omega
        · have h0 : ¬n < 0 := by omega
          have hp : printJson (Json.num n) = natChars n.natAbs := by
            simp [printJson, intChars, h0]
          have := natLen n.natAbs
          simp [jsonNeed, hp]
          omega
      | str s =>
        simp [jsonNeed, printJson, strChars]
        omega
      | arr xs =>
        cases xs with
        | nil => simp [jsonNeed, jsonNeedList, printJson]
        | cons x xs =>
          simp only [Json.arr.sizeOf_spec, List.cons.sizeOf_spec] at hv
          have hx := ihP x (by omega)
          have hxs := ihQ xs (by omega)
          have heq : jsonNeed (Json.arr (x :: xs))
              = 1 + (1 + jsonNeed x + jsonNeedList xs) := by
            simp [jsonNeed, jsonNeedList]
          have hlen : (printJson (Json.arr (x :: xs))).length
              = 2 + (printJson x).length + (printArrTail xs).length := by
            simp [printJson]
            omega
          omega
      | obj kvs =>
        cases kvs with
        | nil => simp [jsonNeed, jsonNeedEntries, printJson]
        | cons kv kvs =>
          obtain ⟨k, v⟩ := kv
          simp only [Json.obj.sizeOf_spec, List.cons.sizeOf_spec, Prod.mk.sizeOf_spec] at hv
          have hx := ihP v (by omega)
          have hkvs := ihR kvs (by omega)
          have heq : jsonNeed (Json.obj ((k, v) :: kvs))
              = 1 + (1 + jsonNeed v + jsonNeedEntries kvs) := by
            simp [jsonNeed, jsonNeedEntries]
          have hlen : (printJson (Json.obj ((k, v) :: kvs))).length
              = 2 + (printEntry (k, v)).length + (printObjTail kvs).length := by
            simp [printJson]
            omega
          have hentry : (printJson v).length ≤ (printEntry (k, v)).length := by
            simp [printEntry]
            omega
          omega
    · intro xs hxs
      cases xs with
      | nil => simp [jsonNeedList, printArrTail]
      | cons x xs =>
        simp only [List.cons.sizeOf_spec] at hxs
        have hx := ihP x (by omega)
        have hxs2 := ihQ xs (by omega)
        have heq : jsonNeedList (x :: xs) = 1 + jsonNeed x + jsonNeedList xs := by
          simp [jsonNeedList]
        have hlen : (printArrTail (x :: xs)).length
            = 1 + (printJson x).length + (printArrTail xs).length := by
          simp [printArrTail]
          omega
        omega
    · intro kvs hkvs
      cases kvs with
      | nil => simp [jsonNeedEntries, printObjTail]
      | cons kv kvs =>
        obtain ⟨k, v⟩ := kv
        simp only [List.cons.sizeOf_spec, Prod.mk.sizeOf_spec] at hkvs
        have hx := ihP v (by omega)
        have hkvs2 := ihR kvs (by omega)
        have heq : jsonNeedEntries ((k, v) :: kvs)
            = 1 + jsonNeed v + jsonNeedEntries kvs := by
          simp [jsonNeedEntries]
        have hlen : (printObjTail ((k, v) :: kvs)).length
            = 1 + (printEntry (k, v)).length + (printObjTail kvs).length := by
          simp [printObjTail]
          omega
        have hentry : (printJson v).length ≤ (printEntry (k, v)).length := by
          simp [printEntry]
          omega
        omega

theorem jsonNeed_le (v : Json) : jsonNeed v ≤ 2 * (printJson v).length :=
  (jsonNeed_le_aux (sizeOf v)).1 v le_rfl

/-- Round trip of the modelled JSON codec. -/
theorem jsonParse_stringify (v : Json) : jsonParse (jsonStringify v) = some v := by
  have hq := parseValue_print v (2 * (printJson v).length + 2) []
    (by have := jsonNeed_le v; omega) (by rfl)
  rw [List.append_nil] at hq
  rw [jsonParse]
  rw [show (jsonStringify v).data = printJson v from rfl] at *
  rw [hq]

/-! ### Message content handling (src/Message.ts)

`Message.setContent` / `Message.getContent` are embedded over the byte
and JSON models above.  `JsVal` is the JS runtime value passed in or
returned: a string, a Buffer of bytes, or any other (JSON-serializable)
value.  Only the fields the content methods touch are modelled: the
`content` buffer and `properties.contentType` (`none` models JS
`undefined`).
-/

/-- JS values flowing through `setContent` / `getContent`. -/
inductive JsVal where
  | str (s : String) : JsVal
  | buf (b : List Nat) : JsVal
  | json (j : Json) : JsVal

/-- Content-relevant state of a `Message`. -/
structure MessageM where
  content : List Nat
  contentType : Option String

namespace Message

/-- A freshly constructed `new Message()` with default properties `{}`. -/
def empty : MessageM := { content := [], contentType := none }

/-- Embeds `Message.setContent` (src/Message.ts lines 47-56): a string is
UTF-8 encoded; a non-string non-Buffer value is JSON-encoded and
`properties.contentType` is set to `application/json`; a Buffer is
stored as-is. -/
def setContent (m : MessageM) (content : JsVal) : MessageM :=
  match content with
  | .str s => { m with content := utf8Encode s }
  | .json j =>
    { m with content := utf8Encode (jsonStringify j),
             contentType := some "application/json" }
  | .buf b => { m with content := b }

/-- Embeds `Message.getContent` (src/Message.ts lines 62-68): decode the
stored bytes with `toString()`; if `contentType` is `application/json`,
parse the result as JSON.  `none` models a decode or parse failure. -/
def getContent (m : MessageM) : Option JsVal :=
  (utf8Decode m.content).bind fun cs =>
    if m.contentType = some "application/json" then
      (jsonParse ⟨cs⟩).map JsVal.json
    else
      some (JsVal.str ⟨cs⟩)

end Message

/-- C1 counterexample: constructing a Message and calling
`setContent` with the byte buffer `[104]` ("h"), `getContent` returns
the decoded string "h" — a string, not a byte-identical buffer. -/
theorem C1_buffer_not_roundtrip :
    Message.getContent (Message.setContent Message.empty (JsVal.buf [104]))
        = some (JsVal.str "h")
      ∧ some (JsVal.str "h") ≠ some (JsVal.buf [104]) := by
  constructor
  · rfl
  · intro h
    exact JsVal.noConfusion (Option.some.inj h)

/-- C1 (amended): on a fresh Message, `setContent` then `getContent`
round-trips strings (equal string back) and JSON-serializable values
(equal value back); a byte buffer is stored byte-identically, but
`getContent` returns the UTF-8 decoding of those bytes as a string, not
a buffer. -/
theorem C1_content_roundtrip :
    (∀ s : String,
      Message.getContent (Message.setContent Message.empty (JsVal.str s))
        = some (JsVal.str s)) ∧
    (∀ j : Json,
      Message.getContent (Message.setContent Message.empty (JsVal.json j))
        = some (JsVal.json j)) ∧
    (∀ b : List Nat,
      (Message.setContent Message.empty (JsVal.buf b)).content = b ∧
      Message.getContent (Message.setContent Message.empty (JsVal.buf b))
        = (utf8Decode b).map (fun cs => JsVal.str ⟨cs⟩)) := by
  refine ⟨?_, ?_, ?_⟩
  · intro s
    rw [Message.getContent]
    rw [show (Message.setContent Message.empty (JsVal.str s)).content
        = utf8Encode s from rfl]
    rw [utf8Decode_utf8Encode, Option.bind]
    rw [if_neg (by rw [show (Message.setContent Message.empty (JsVal.str s)).contentType
        = none from rfl]; simp)]
  · intro j
    rw [Message.getContent]
    rw [show (Message.setContent Message.empty (JsVal.json j)).content
        = utf8Encode (jsonStringify j) from rfl]
    rw [utf8Decode_utf8Encode, Option.bind]
    rw [if_pos (by rw [show (Message.setContent Message.empty (JsVal.json j)).contentType
        = some "application/json" from rfl])]
    rw [show (⟨(jsonStringify j).data⟩ : String) = jsonStringify j from rfl]
    rw [jsonParse_stringify]
    rfl
  · intro b
    refine ⟨rfl, ?_⟩
    rw [Message.getContent]
    rw [show (Message.setContent Message.empty (JsVal.buf b)).content = b from rfl]
    cases hd : utf8Decode b with
    | none => rfl
    | some cs =>
      rw [Option.bind]
      rw [if_neg (by rw [show (Message.setContent Message.empty (JsVal.buf b)).contentType
          = none from rfl]; simp)]
      rfl

/-! ### Nodes and Binding identity (src/Binding.ts / src/Message.ts)

A node is an Exchange or a Queue; `Binding.id` only consults the
destination's runtime type (`destination instanceof Queue`) and the
`_name` fields, so a node is modelled by that pair.
-/

/-- A node reference: whether it is a Queue (`true`) or an Exchange,
and its `_name`. -/
structure NodeRef where
  isQueue : Bool
  name : String
deriving DecidableEq

/-- Embeds `Binding.id` (src/Binding.ts): the template literal
`[src]to<Queue|Exchange>[dst]pattern`. -/
def Binding.id (destination source : NodeRef) (pattern : String) : String :=
  let srcString := source.name
  let dstString := destination.name
  let typeString := if destination.isQueue then "Queue" else "Exchange"
  "[" ++ srcString ++ "]to" ++ typeString ++ "[" ++ dstString ++ "]" ++ pattern

/-- Split the input at the first right bracket. -/
def splitAtRBracket : List Char → Option (List Char × List Char)
  | [] => none
  | c :: cs =>
    if c = ']' then some ([], cs)
    else (splitAtRBracket cs).map (fun p => (c :: p.1, p.2))

theorem splitAtRBracket_append (s rest : List Char) (hs : ']' ∉ s) :
    splitAtRBracket (s ++ ']' :: rest) = some (s, rest) := by
  induction s with
  | nil =>
    rw [List.nil_append, splitAtRBracket, if_pos rfl]
  | cons c cs ih =>
    have hc : ¬c = ']' := fun h => hs (h ▸ List.mem_cons_self _ _)
    rw [List.cons_append, splitAtRBracket, if_neg hc,
      ih (fun h => hs (List.mem_cons_of_mem _ h))]
    rfl

/-- Recognize the destination-kind keyword of a binding id. -/
def decodeKind (l : List Char) : Option (Bool × List Char) :=
  ((expectChars ['Q', 'u', 'e', 'u', 'e', '['] l).map (fun rest => (true, rest))).orElse
    (fun _ =>
      (expectChars ['E', 'x', 'c', 'h', 'a', 'n', 'g', 'e', '['] l).map
        (fun rest => (false, rest)))

/-- Decode a binding id back into source name, destination kind,
destination name and pattern (total only on ids of bracket-free
names). -/
def decodeBindingId (l : List Char) : Option (String × Bool × String × String) :=
  (expectChar '[' l).bind fun rest =>
  (splitAtRBracket rest).bind fun p =>
  (expectChars ['t', 'o'] p.2).bind fun tail =>
  (decodeKind tail).bind fun kq =>
  (splitAtRBracket kq.2).map fun q => (⟨p.1⟩, kq.1, ⟨q.1⟩, ⟨q.2⟩)

theorem bindingId_data (d s : NodeRef) (p : String) :
    (Binding.id d s p).data
      = '[' :: (s.name.data ++ (']' :: 't' :: 'o' ::
          ((if d.isQueue then "Queue" else "Exchange").data ++
            ('[' :: (d.name.data ++ (']' :: p.data)))))) := by
  cases hq : d.isQueue <;>
    simp [Binding.id, hq, show ("[" : String).data = ['['] from rfl,
      show ("]to" : String).data = [']', 't', 'o'] from rfl,
      show ("]" : String).data = [']'] from rfl,
      show ("Queue" : String).data = ['Q', 'u', 'e', 'u', 'e'] from rfl,
      show ("Exchange" : String).data = ['E', 'x', 'c', 'h', 'a', 'n', 'g', 'e'] from rfl]

theorem decodeBindingId_encode (d s : NodeRef) (p : String)
    (hs : ']' ∉ s.name.data) (hd : ']' ∉ d.name.data) :
    decodeBindingId (Binding.id d s p).data = some (s.name, d.isQueue, d.name, p) := by
  rw [bindingId_data, decodeBindingId]
  rw [expectChar, if_pos rfl, Option.bind]
  rw [splitAtRBracket_append s.name.data _ hs, Option.bind]
  rw [show expectChars ['t', 'o']
      ('t' :: 'o' :: ((if d.isQueue then "Queue" else "Exchange").data ++
        ('[' :: (d.name.data ++ (']' :: p.data)))))
      = some ((if d.isQueue then "Queue" else "Exchange").data ++
        ('[' :: (d.name.data ++ (']' :: p.data)))) from by
    simp [expectChars, expectChar]]
  rw [Option.bind]
  cases hq : d.isQueue with
  | true =>
    rw [show (if true = true then ("Queue" : String) else "Exchange").data
        = ['Q', 'u', 'e', 'u', 'e'] from rfl]
    simp only [List.cons_append, List.nil_append]
    rw [show decodeKind ('Q' :: 'u' :: 'e' :: 'u' :: 'e' ::
        ('[' :: (d.name.data ++ (']' :: p.data))))
        = some (true, d.name.data ++ (']' :: p.data)) from by
      simp [decodeKind, expectChars, expectChar]]
    rw [Option.bind]
    rw [splitAtRBracket_append d.name.data _ hd]
    rfl
  | false =>
    rw [show (if false = true then ("Queue" : String) else "Exchange").data
        = ['E', 'x', 'c', 'h', 'a', 'n', 'g', 'e'] from rfl]
    simp only [List.cons_append, List.nil_append]
    rw [show decodeKind ('E' :: 'x' :: 'c' :: 'h' :: 'a' :: 'n' :: 'g' :: 'e' ::
        ('[' :: (d.name.data ++ (']' :: p.data))))
        = some (false, d.name.data ++ (']' :: p.data)) from by
      simp [decodeKind, expectChars, expectChar]]
    rw [Option.bind]
    rw [splitAtRBracket_append d.name.data _ hd]
    rfl

/-- C6 counterexample: `Binding.id` collides for distinct tuples when a
destination name contains a right bracket: the queue named `b]x` with
empty pattern and the queue named `b` with pattern `x]` produce the same
id from the same source. -/
theorem C6_binding_id_collision :
    Binding.id ⟨true, "b]x"⟩ ⟨false, "a"⟩ "" = Binding.id ⟨true, "b"⟩ ⟨false, "a"⟩ "x]"
      ∧ ("b]x" : String) ≠ "b" ∧ ("" : String) ≠ "x]" := by
  refine ⟨by decide, by decide, by decide⟩

/-- C6 (amended): `Binding.id` is injective in (source name, destination
name, destination kind, pattern) provided the source and destination
names contain no right-bracket character. -/
theorem C6_binding_id_injective (d1 s1 : NodeRef) (p1 : String) (d2 s2 : NodeRef)
    (p2 : String)
    (hs1 : ']' ∉ s1.name.data) (hd1 : ']' ∉ d1.name.data)
    (hs2 : ']' ∉ s2.name.data) (hd2 : ']' ∉ d2.name.data)
    (heq : Binding.id d1 s1 p1 = Binding.id d2 s2 p2) :
    s1.name = s2.name ∧ d1.name = d2.name ∧ d1.isQueue = d2.isQueue ∧ p1 = p2 := by
  have h1 := decodeBindingId_encode d1 s1 p1 hs1 hd1
  have h2 := decodeBindingId_encode d2 s2 p2 hs2 hd2
  rw [heq, h2] at h1
  have h3 := Option.some.inj h1
  simp only [Prod.mk.injEq] at h3
  exact ⟨h3.1.symm, h3.2.2.1.symm, h3.2.1.symm, h3.2.2.2.symm⟩

/-- C6 witness: the injectivity theorem applied at a concrete
bracket-free instance. -/
theorem C6_binding_id_injective_witness :
    ("ex" : String) = "ex" ∧ ("q" : String) = "q" ∧ true = true ∧ ("k" : String) = "k" := by
  have hx : ']' ∉ ("ex" : String).data := by decide
  have hq : ']' ∉ ("q" : String).data := by decide
  exact C6_binding_id_injective ⟨true, "q"⟩ ⟨false, "ex"⟩ "k" ⟨true, "q"⟩ ⟨false, "ex"⟩ "k"
    hx hq hx hq rfl

/-! ### Message.sendTo (src/Message.ts lines 75-103) -/

/-- Observable effects of `sendTo`, in order. -/
inductive SendEvent where
  | awaitInitialized (dest : NodeRef) : SendEvent
  | publish (exchange routingKey : String) (content : List Nat)
      (contentType : Option String) : SendEvent
deriving DecidableEq

/-- Embeds `Message.sendTo`: compute the exchange and routing key from
the destination's kind, wait for the destination's `initialized` latch,
then publish the message's content and properties on the destination's
channel. -/
def Message.sendTo (m : MessageM) (destination : NodeRef) (routingKey : String) :
    List SendEvent :=
  let exchange := if destination.isQueue then "" else destination.name
  let routingKey' := if destination.isQueue then destination.name else routingKey
  [SendEvent.awaitInitialized destination,
   SendEvent.publish exchange routingKey' m.content m.contentType]

/-- C7: `sendTo(d, k)` first waits for `d.initialized`; if `d` is a
Queue it publishes to the default exchange `""` with routing key equal
to the queue's name (the supplied key is discarded), otherwise it
publishes to the exchange named `d._name` with routing key `k`; the
published body and properties are the message's. -/
theorem C7_sendTo_dispatch (m : MessageM) (d : NodeRef) (k : String) :
    (d.isQueue = true →
      Message.sendTo m d k
        = [SendEvent.awaitInitialized d,
           SendEvent.publish "" d.name m.content m.contentType]) ∧
    (d.isQueue = false →
      Message.sendTo m d k
        = [SendEvent.awaitInitialized d,
           SendEvent.publish d.name k m.content m.contentType]) := by
  constructor
  · intro hq
    simp [Message.sendTo, hq]
  · intro hq
    simp [Message.sendTo, hq]

/-- C7 witness: the dispatch theorem applied to a concrete queue and a
concrete exchange destination. -/
theorem C7_sendTo_dispatch_witness :
    Message.sendTo ⟨[1], none⟩ ⟨true, "q"⟩ "rk"
        = [SendEvent.awaitInitialized ⟨true, "q"⟩,
           SendEvent.publish "" "q" [1] none]
      ∧ Message.sendTo ⟨[2], none⟩ ⟨false, "ex"⟩ "rk"
        = [SendEvent.awaitInitialized ⟨false, "ex"⟩,
           SendEvent.publish "ex" "rk" [2] none] :=
  ⟨(C7_sendTo_dispatch ⟨[1], none⟩ ⟨true, "q"⟩ "rk").1 rfl,
   (C7_sendTo_dispatch ⟨[2], none⟩ ⟨false, "ex"⟩ "rk").2 rfl⟩

/-! ### Connection reconnect loop (Connection.ts: rebuildConnection /
tryToConnect / retryConnection)

A connect attempt either succeeds or fails; `broker n` tells whether the
attempt made by `tryToConnect(n)` succeeds.  The loop is embedded as a
fuel-indexed recursion (`retries = 0` means retry forever, so the real
loop is unbounded); the fuel only cuts off that unbounded case and any
theorem supplies enough of it.  The outcome records the number of
connect attempts made and the sleeps (`setTimeout` intervals) in order.
-/

/-- The reconnect strategy record. -/
structure ReconnectStrategy where
  retries : Nat
  interval : Nat
deriving DecidableEq

/-- Result of the `tryToConnect` / `retryConnection` loop. -/
inductive ConnectOutcome where
  | connected (attempts : Nat) (delays : List Nat) : ConnectOutcome
  | failed (msg : String) (attempts : Nat) (delays : List Nat) : ConnectOutcome
  | outOfFuel : ConnectOutcome
deriving DecidableEq

/-- Embeds `tryToConnect(retry)` (Connection.ts): attempt a connect; on
failure call `retryConnection(retry + 1)`, which throws
`Error("Connection failed")` when `retries !== 0 && retries < retry`,
and otherwise sleeps `interval` ms and calls `tryToConnect(retry)`
again with the incremented counter. -/
def connectLoop (rs : ReconnectStrategy) (broker : Nat → Bool) : Nat → Nat → ConnectOutcome
  | 0, _ => ConnectOutcome.outOfFuel
  | fuel + 1, retry =>
    if broker retry then ConnectOutcome.connected 1 []
    else if rs.retries ≠ 0 ∧ rs.retries < retry + 1 then
      ConnectOutcome.failed "Connection failed" 1 []
    else
      match connectLoop rs broker fuel (retry + 1) with
      | ConnectOutcome.connected a d => ConnectOutcome.connected (a + 1) (rs.interval :: d)
      | ConnectOutcome.failed m a d => ConnectOutcome.failed m (a + 1) (rs.interval :: d)
      | ConnectOutcome.outOfFuel => ConnectOutcome.outOfFuel

/-- One-shot latch observation. -/
inductive LatchState where
  | fulfilled : LatchState
  | rejected (msg : String) : LatchState
deriving DecidableEq

/-- Embeds what `rebuildConnection` stores in `this.initialized`:
`this.tryToConnect().then(() => log(...)).catch((_err) => log("warn",
"Error creating connection!")).finally(...)`.  The `.catch` handler
swallows the connect failure, so the latch fulfills whether the loop
connected or exhausted its retries. -/
def rebuildConnectionLatch : ConnectOutcome → Option LatchState
  | ConnectOutcome.connected _ _ => some LatchState.fulfilled
  | ConnectOutcome.failed _ _ _ => some LatchState.fulfilled
  | ConnectOutcome.outOfFuel => none

theorem connectLoop_exhausts (rs : ReconnectStrategy) (hN : 0 < rs.retries) :
    ∀ (fuel retry : Nat), retry ≤ rs.retries → rs.retries + 1 - retry ≤ fuel →
      connectLoop rs (fun _ => false) fuel retry
        = ConnectOutcome.failed "Connection failed" (rs.retries + 1 - retry)
            (List.replicate (rs.retries - retry) rs.interval) := by
  intro fuel
  induction fuel with
  | zero =>
    intro retry h1 h2
    omega
  | succ f ih =>
    intro retry h1 h2
    rw [connectLoop]
    rw [if_neg (by simp)]
    by_cases hlast : retry = rs.retries
    · rw [if_pos (by omega)]
      rw [show rs.retries + 1 - retry = 1 from by omega,
        show rs.retries - retry = 0 from by omega]
      rfl
    · rw [if_neg (by omega)]
      rw [ih (retry + 1) (by omega) (by omega)]
      show ConnectOutcome.failed "Connection failed" (rs.retries + 1 - (retry + 1) + 1)
          (rs.interval :: List.replicate (rs.retries - (retry + 1)) rs.interval) = _
      rw [← List.replicate_succ]
      rw [show rs.retries - (retry + 1) + 1 = rs.retries - retry from by omega,
        show rs.retries + 1 - (retry + 1) + 1 = rs.retries + 1 - retry from by omega]

/-- C2 counterexample: with `retries = 1` against an always-failing
broker the loop exhausts with the plain error `Connection failed`, but
`rebuildConnection`'s catch handler swallows it, so the `initialized`
latch fulfills — it does not reject with a ConnectionExhausted error. -/
theorem C2_initialized_fulfills :
    rebuildConnectionLatch (connectLoop ⟨1, 5⟩ (fun _ => false) 2 0)
        = some LatchState.fulfilled
      ∧ ∀ msg, rebuildConnectionLatch (connectLoop ⟨1, 5⟩ (fun _ => false) 2 0)
        ≠ some (LatchState.rejected msg) := by
  constructor
  · rfl
  · intro msg h
    rw [show connectLoop ⟨1, 5⟩ (fun _ => false) 2 0
        = ConnectOutcome.failed "Connection failed" 2 [5] from rfl] at h
    exact LatchState.noConfusion (Option.some.inj h)

/-- C2 (amended): with `retries = N > 0` against an always-failing
broker, exactly `N + 1` connect attempts are made, each attempt after
the first preceded by an `interval`-millisecond sleep, and the loop
ends with the plain `Error("Connection failed")`; that error is caught
and logged by `rebuildConnection`, so `Connection.initialized`
fulfills rather than rejecting. -/
theorem C2_reconnect_policy (N interval fuel : Nat) (hN : 0 < N) (hfuel : N + 1 ≤ fuel) :
    connectLoop ⟨N, interval⟩ (fun _ => false) fuel 0
        = ConnectOutcome.failed "Connection failed" (N + 1) (List.replicate N interval)
      ∧ rebuildConnectionLatch (connectLoop ⟨N, interval⟩ (fun _ => false) fuel 0)
        = some LatchState.fulfilled := by
  have h := connectLoop_exhausts ⟨N, interval⟩ hN fuel 0
    (by show (0 : Nat) ≤ N; omega) (by show N + 1 - 0 ≤ fuel; omega)
  have h2 : connectLoop ⟨N, interval⟩ (fun _ => false) fuel 0
      = ConnectOutcome.failed "Connection failed" (N + 1) (List.replicate N interval) := by
    rw [h]
    rw [show N + 1 - 0 = N + 1 from by omega, show N - 0 = N from by omega]
  exact ⟨h2, by rw [h2]; rfl⟩

/-- C2 witness: the reconnect policy theorem at `retries = 2`,
`interval = 10`, fuel 3. -/
theorem C2_reconnect_policy_witness :
    connectLoop ⟨2, 10⟩ (fun _ => false) 3 0
        = ConnectOutcome.failed "Connection failed" 3 (List.replicate 2 10)
      ∧ rebuildConnectionLatch (connectLoop ⟨2, 10⟩ (fun _ => false) 3 0)
        = some LatchState.fulfilled :=
  C2_reconnect_policy 2 10 3 (by decide) (by decide)

/-! ### Connection registry: declareExchange / declareQueue
(Connection.ts lines 110-130 / 463-483)

Exchange and Queue objects are modelled with a creation counter as
object identity; the constructors register the new object under its
name and the declare methods return the registered object when one
exists, ignoring the supplied type and options.
-/

/-- An Exchange object: identity, name, and the constructor arguments
it was created with. -/
structure ExchangeObj where
  eid : Nat
  name : String
  type? : Option String
  options : Option Json

/-- A Queue object: identity, name, and the constructor options. -/
structure QueueObj where
  qid : Nat
  name : String
  options : Option Json

/-- The connection's registry maps plus the object-identity counter. -/
structure Registry where
  exchanges : List (String × ExchangeObj)
  queues : List (String × QueueObj)
  nextId : Nat

/-- Embeds `Connection.declareExchange`: return the registered Exchange
when one with this name exists; otherwise construct one (which
registers itself) and return it. -/
def Connection.declareExchange (st : Registry) (name : String) (ty : Option String)
    (opts : Option Json) : Registry × ExchangeObj :=
  match st.exchanges.lookup name with
  | some exchange => (st, exchange)
  | none =>
    let exchange : ExchangeObj := ⟨st.nextId, name, ty, opts⟩
    ({ st with exchanges := (name, exchange) :: st.exchanges, nextId := st.nextId + 1 },
     exchange)

/-- Embeds `Connection.declareQueue`, same shape as `declareExchange`. -/
def Connection.declareQueue (st : Registry) (name : String) (opts : Option Json) :
    Registry × QueueObj :=
  match st.queues.lookup name with
  | some queue => (st, queue)
  | none =>
    let queue : QueueObj := ⟨st.nextId, name, opts⟩
    ({ st with queues := (name, queue) :: st.queues, nextId := st.nextId + 1 }, queue)

theorem lookup_none_not_mem {α : Type} (l : List (String × α)) (name : String)
    (h : l.lookup name = none) : name ∉ l.map Prod.fst := by
  induction l with
  | nil => simp
  | cons a l ih =>
    rw [List.lookup] at h
    cases hba : (name == a.1) with
    | true => rw [hba] at h; simp at h
    | false =>
      rw [hba] at h
      have hne : name ≠ a.1 := by
        intro he
        rw [he] at hba
        simp at hba
      simp only [List.map_cons, List.mem_cons]
      rintro (he | hm)
      · exact hne he
      · exact ih h hm

/-- C3: while an Exchange (resp. Queue) with a name is registered,
`declareExchange` (resp. `declareQueue`) returns the registered object
unchanged and ignores the supplied type and options; a declaration into
a free name stores the supplied type and options, and an immediately
following redeclaration returns that identical object with the registry
unchanged; and both declare methods preserve the at-most-one-per-name
property of the registries. -/
theorem C3_declare_idempotent (st : Registry) (name : String) (t2 : Option String)
    (o2 : Option Json) :
    (∀ e, st.exchanges.lookup name = some e →
      Connection.declareExchange st name t2 o2 = (st, e)) ∧
    (∀ q, st.queues.lookup name = some q →
      Connection.declareQueue st name o2 = (st, q)) ∧
    (∀ t1 o1, st.exchanges.lookup name = none →
      (Connection.declareExchange st name t1 o1).2.type? = t1 ∧
      (Connection.declareExchange st name t1 o1).2.options = o1 ∧
      Connection.declareExchange (Connection.declareExchange st name t1 o1).1 name t2 o2
        = ((Connection.declareExchange st name t1 o1).1,
           (Connection.declareExchange st name t1 o1).2)) ∧
    (∀ o1, st.queues.lookup name = none →
      (Connection.declareQueue st name o1).2.options = o1 ∧
      Connection.declareQueue (Connection.declareQueue st name o1).1 name o2
        = ((Connection.declareQueue st name o1).1, (Connection.declareQueue st name o1).2)) ∧
    ((st.exchanges.map Prod.fst).Nodup →
      ((Connection.declareExchange st name t2 o2).1.exchanges.map Prod.fst).Nodup) ∧
    ((st.queues.map Prod.fst).Nodup →
      ((Connection.declareQueue st name o2).1.queues.map Prod.fst).Nodup) := by
  refine ⟨?hA, ?hB, ?hC, ?hD, ?hE, ?hF⟩
  · intro e he
    rw [Connection.declareExchange, he]
  · intro q hq
    rw [Connection.declareQueue, hq]
  · intro t1 o1 hn
    rw [Connection.declareExchange, hn]
    refine ⟨rfl, rfl, ?_⟩
    rw [Connection.declareExchange]
    rw [show (({ st with
        exchanges := (name, (⟨st.nextId, name, t1, o1⟩ : ExchangeObj)) :: st.exchanges,
        nextId := st.nextId + 1 } : Registry).exchanges).lookup name
      = some ⟨st.nextId, name, t1, o1⟩ from by simp [List.lookup]]
  · intro o1 hn
    rw [Connection.declareQueue, hn]
    refine ⟨rfl, ?_⟩
    rw [Connection.declareQueue]
    rw [show (({ st with
        queues := (name, (⟨st.nextId, name, o1⟩ : QueueObj)) :: st.queues,
        nextId := st.nextId + 1 } : Registry).queues).lookup name
      = some ⟨st.nextId, name, o1⟩ from by simp [List.lookup]]
  · intro hnd
    rw [Connection.declareExchange]
    cases he : st.exchanges.lookup name with
    | some e => exact hnd
    | none =>
      simp only [List.map_cons, List.nodup_cons]
      exact ⟨lookup_none_not_mem _ _ he, hnd⟩
  · intro hnd
    rw [Connection.declareQueue]
    cases hq : st.queues.lookup name with
    | some q => exact hnd
    | none =>
      simp only [List.map_cons, List.nodup_cons]
      exact ⟨lookup_none_not_mem _ _ hq, hnd⟩

/-- C3 witness: declaring `x` twice on an empty registry returns the
identical object and leaves the first declaration's type in place. -/
theorem C3_declare_idempotent_witness :
    (Connection.declareExchange
        (Connection.declareExchange ⟨[], [], 0⟩ "x" (some "direct") none).1
        "x" (some "fanout") none).2.type? = some "direct" := by
  have h := (C3_declare_idempotent ⟨[], [], 0⟩ "x" (some "fanout") none).2.2.1
    (some "direct") none rfl
  rw [h.2.2]
  exact h.1

/-! ### Node terminal latches: delete() / close()
(src/Exchange.ts lines 98-121, src/Queue.ts lines 122-148)

The `_deleting` / `_closing` promises are one-shot latches identified by
a counter; `deleteRuns` / `closeRuns` count how many times the deletion
or closure chain was started.  The embeddings reproduce the source's
field usage exactly — in particular `Queue.delete` guards on
`_deleting`, assigns the chain to `_closing`, and returns `_deleting`.
-/

/-- Latch fields of a node together with run counters. -/
structure NodeLifecycle where
  deleting : Option Nat
  closing : Option Nat
  deleteRuns : Nat
  closeRuns : Nat
  nextLatch : Nat
deriving DecidableEq

/-- Embeds `Exchange.delete`: `if (this._deleting === undefined) {
this._deleting = <chain> } return this._deleting`. -/
def Exchange.deleteOp (e : NodeLifecycle) : NodeLifecycle × Option Nat :=
  if e.deleting = none then
    let e' := { e with deleting := some e.nextLatch, nextLatch := e.nextLatch + 1,
                       deleteRuns := e.deleteRuns + 1 }
    (e', e'.deleting)
  else (e, e.deleting)

/-- Embeds `Exchange.close`: `if (this._closing === undefined) {
this._closing = <chain> } return this._closing`. -/
def Exchange.closeOp (e : NodeLifecycle) : NodeLifecycle × Option Nat :=
  if e.closing = none then
    let e' := { e with closing := some e.nextLatch, nextLatch := e.nextLatch + 1,
                       closeRuns := e.closeRuns + 1 }
    (e', e'.closing)
  else (e, e.closing)

/-- Embeds `Queue.delete` exactly as written in the source: the guard
tests `this._deleting`, the deletion chain is assigned to
`this._closing`, and `this._deleting` (never assigned) is returned. -/
def Queue.deleteOp (q : NodeLifecycle) : NodeLifecycle × Option Nat :=
  if q.deleting = none then
    let q' := { q with closing := some q.nextLatch, nextLatch := q.nextLatch + 1,
                       deleteRuns := q.deleteRuns + 1 }
    (q', q'.deleting)
  else (q, q.deleting)

/-- Embeds `Queue.close` (guard, assignment and return all use
`_closing`). -/
def Queue.closeOp (q : NodeLifecycle) : NodeLifecycle × Option Nat :=
  if q.closing = none then
    let q' := { q with closing := some q.nextLatch, nextLatch := q.nextLatch + 1,
                       closeRuns := q.closeRuns + 1 }
    (q', q'.closing)
  else (q, q.closing)

/-- C4: evaluation at the failing input.  `Exchange.delete`,
`Exchange.close` and `Queue.close` are idempotent as claimed (the
second call returns the first call's latch and the chain runs once),
but `Queue.delete` is not: both calls on a fresh queue return
`undefined` (the never-assigned `_deleting`), and the second call runs
the whole deletion chain again (`deleteRuns = 2`), storing a fresh
chain in `_closing`. -/
theorem C4_queue_delete_not_idempotent :
    (Queue.deleteOp ⟨none, none, 0, 0, 0⟩).2 = none
      ∧ (Queue.deleteOp (Queue.deleteOp ⟨none, none, 0, 0, 0⟩).1).2 = none
      ∧ (Queue.deleteOp (Queue.deleteOp ⟨none, none, 0, 0, 0⟩).1).1.deleteRuns = 2
      ∧ (Queue.deleteOp (Queue.deleteOp ⟨none, none, 0, 0, 0⟩).1).1.closing
          ≠ (Queue.deleteOp ⟨none, none, 0, 0, 0⟩).1.closing
      ∧ Exchange.deleteOp (Exchange.deleteOp ⟨none, none, 0, 0, 0⟩).1
          = ((Exchange.deleteOp ⟨none, none, 0, 0, 0⟩).1,
             (Exchange.deleteOp ⟨none, none, 0, 0, 0⟩).2)
      ∧ (Exchange.deleteOp (Exchange.deleteOp ⟨none, none, 0, 0, 0⟩).1).1.deleteRuns = 1
      ∧ Exchange.closeOp (Exchange.closeOp ⟨none, none, 0, 0, 0⟩).1
          = ((Exchange.closeOp ⟨none, none, 0, 0, 0⟩).1,
             (Exchange.closeOp ⟨none, none, 0, 0, 0⟩).2)
      ∧ Queue.closeOp (Queue.closeOp ⟨none, none, 0, 0, 0⟩).1
          = ((Queue.closeOp ⟨none, none, 0, 0, 0⟩).1,
             (Queue.closeOp ⟨none, none, 0, 0, 0⟩).2)
      ∧ (Queue.closeOp (Queue.closeOp ⟨none, none, 0, 0, 0⟩).1).1.closeRuns = 1 := by
  decide

/-! ### declareTopology (Connection.ts, both variants)

The repository holds two `declareTopology` implementations.  The later
variant validates bindings and throws
`Error("Binding should have either exchange or queue defined")`; the
earlier variant performs no validation and passes the (possibly
undefined) `binding.queue` to `declareQueue`, where JS coerces the
`undefined` property key to the string `"undefined"`.  The embeddings
produce the declaration/bind calls of the successful path, or the
thrown error message.
-/

/-- One topology binding entry. -/
structure TopoBindingDecl where
  source : String
  queue : Option String
  exchange : Option String
  pattern : Option String
  args : Option Json

/-- The topology object: each list may be absent. -/
structure Topology where
  exchanges : Option (List (String × Option String × Option Json))
  queues : Option (List (String × Option Json))
  bindings : Option (List TopoBindingDecl)

/-- A declaration or bind call made by `declareTopology`. -/
inductive TopoAction where
  | declExchange (name : String) (type? : Option String) (options : Option Json) : TopoAction
  | declQueue (name : String) (options : Option Json) : TopoAction
  | bindTo (sourceExchange : String) (dest : NodeRef) (pattern : Option String)
      (args : Option Json) : TopoAction

/-- Binding loop of the validating variant (second `declareTopology`):
declare the source exchange, then the destination exchange or queue and
bind it, or throw when the binding names neither. -/
def declareBindings_v2 : List TopoBindingDecl → Except String (List TopoAction)
  | [] => Except.ok []
  | b :: bs =>
    match b.exchange with
    | some ex =>
      (declareBindings_v2 bs).map (fun acts =>
        TopoAction.declExchange b.source none none :: TopoAction.declExchange ex none none
          :: TopoAction.bindTo b.source ⟨false, ex⟩ b.pattern b.args :: acts)
    | none =>
      match b.queue with
      | some q =>
        (declareBindings_v2 bs).map (fun acts =>
          TopoAction.declExchange b.source none none :: TopoAction.declQueue q none
            :: TopoAction.bindTo b.source ⟨true, q⟩ b.pattern b.args :: acts)
      | none => Except.error "Binding should have either exchange or queue defined"

/-- Binding loop of the non-validating variant (first
`declareTopology`): when `binding.exchange` is undefined it always
calls `declareQueue(binding.queue)`, a queue named `"undefined"` when
the field is absent. -/
def declareBindings_v1 : List TopoBindingDecl → List TopoAction
  | [] => []
  | b :: bs =>
    match b.exchange with
    | some ex =>
      TopoAction.declExchange b.source none none :: TopoAction.declExchange ex none none
        :: TopoAction.bindTo b.source ⟨false, ex⟩ b.pattern b.args :: declareBindings_v1 bs
    | none =>
      TopoAction.declExchange b.source none none
        :: TopoAction.declQueue (b.queue.getD "undefined") none
        :: TopoAction.bindTo b.source ⟨true, b.queue.getD "undefined"⟩ b.pattern b.args
        :: declareBindings_v1 bs

/-- Exchange- and queue-list declarations shared by both variants. -/
def declareTopologyHead (t : Topology) : List TopoAction :=
  (match t.exchanges with
   | some exs => exs.map (fun e => TopoAction.declExchange e.1 e.2.1 e.2.2)
   | none => []) ++
  (match t.queues with
   | some qs => qs.map (fun q => TopoAction.declQueue q.1 q.2)
   | none => [])

/-- Embeds the validating `declareTopology` (second variant). -/
def Connection.declareTopology_v2 (t : Topology) : Except String (List TopoAction) :=
  match t.bindings with
  | none => Except.ok (declareTopologyHead t)
  | some bs => (declareBindings_v2 bs).map (fun acts => declareTopologyHead t ++ acts)

/-- Embeds the non-validating `declareTopology` (first variant). -/
def Connection.declareTopology_v1 (t : Topology) : Except String (List TopoAction) :=
  match t.bindings with
  | none => Except.ok (declareTopologyHead t)
  | some bs => Except.ok (declareTopologyHead t ++ declareBindings_v1 bs)

theorem declareBindings_v2_error (bs : List TopoBindingDecl) :
    (∃ e, declareBindings_v2 bs = Except.error e)
      ↔ ∃ b ∈ bs, b.queue = none ∧ b.exchange = none := by
  induction bs with
  | nil =>
    simp [declareBindings_v2]
  | cons b bs ih =>
    rw [declareBindings_v2]
    cases hex : b.exchange with
    | some ex =>
      simp only [List.mem_cons]
      constructor
      · rintro ⟨e, he⟩
        cases hrec : declareBindings_v2 bs with
        | ok acts => rw [hrec] at he; exact absurd he (by simp [Except.map])
        | error e2 =>
          rw [hrec] at he
          obtain ⟨bb, hbb, h1, h2⟩ := ih.mp ⟨e2, hrec⟩
          exact ⟨bb, Or.inr hbb, h1, h2⟩
      · rintro ⟨bb, hbb | hbb, h1, h2⟩
        · rw [hbb, hex] at h2; exact absurd h2 (by simp)
        · obtain ⟨e, he⟩ := ih.mpr ⟨bb, hbb, h1, h2⟩
          exact ⟨e, by rw [he]; rfl⟩
    | none =>
      cases hq : b.queue with
      | some q =>
        simp only [List.mem_cons]
        constructor
        · rintro ⟨e, he⟩
          cases hrec : declareBindings_v2 bs with
          | ok acts => rw [hrec] at he; exact absurd he (by simp [Except.map])
          | error e2 =>
            rw [hrec] at he
            obtain ⟨bb, hbb, h1, h2⟩ := ih.mp ⟨e2, hrec⟩
            exact ⟨bb, Or.inr hbb, h1, h2⟩
        · rintro ⟨bb, hbb | hbb, h1, h2⟩
          · rw [hbb, hq] at h1; exact absurd h1 (by simp)
          · obtain ⟨e, he⟩ := ih.mpr ⟨bb, hbb, h1, h2⟩
            exact ⟨e, by rw [he]; rfl⟩
      | none =>
        simp only [List.mem_cons]
        exact ⟨fun _ => ⟨b, Or.inl rfl, hq, hex⟩, fun _ => ⟨_, rfl⟩⟩

theorem declareBindings_v2_error_msg (bs : List TopoBindingDecl) (e : String)
    (h : declareBindings_v2 bs = Except.error e) :
    e = "Binding should have either exchange or queue defined" := by
  induction bs generalizing e with
  | nil => rw [declareBindings_v2] at h; exact absurd h (by simp)
  | cons b bs ih =>
    rw [declareBindings_v2] at h
    split at h
    · cases hrec : declareBindings_v2 bs with
      | ok acts => rw [hrec] at h; exact absurd h (by simp [Except.map])
      | error e2 =>
        rw [hrec] at h
        simp only [Except.map] at h
        rw [← Except.error.inj h]
        exact ih e2 hrec
    · split at h
      · cases hrec : declareBindings_v2 bs with
        | ok acts => rw [hrec] at h; exact absurd h (by simp [Except.map])
        | error e2 =>
          rw [hrec] at h
          simp only [Except.map] at h
          rw [← Except.error.inj h]
          exact ih e2 hrec
      · exact (Except.error.inj h).symm

/-- C5 counterexample: on the S6 topology
`{bindings: [{source: "ex", pattern: ""}]}` the first `declareTopology`
variant produces no error at all — it declares the source exchange and
a queue under the coerced name `"undefined"` and binds them — while the
second variant throws. -/
theorem C5_first_variant_no_error :
    Connection.declareTopology_v1 ⟨none, none, some [⟨"ex", none, none, some "", none⟩]⟩
        = Except.ok [TopoAction.declExchange "ex" none none,
            TopoAction.declQueue "undefined" none,
            TopoAction.bindTo "ex" ⟨true, "undefined"⟩ (some "") none]
      ∧ Connection.declareTopology_v2 ⟨none, none, some [⟨"ex", none, none, some "", none⟩]⟩
        = Except.error "Binding should have either exchange or queue defined" := by
  constructor
  · rfl
  · rfl

/-- C5 (amended): the validating `declareTopology` variant fails, with
exactly the error `Binding should have either exchange or queue
defined`, precisely when some binding entry has neither `queue` nor
`exchange` defined; the non-validating first variant never produces an
error (it declares a queue under the coerced name `"undefined"`
instead). -/
theorem C5_invalid_binding (t : Topology) :
    ((∃ e, Connection.declareTopology_v2 t = Except.error e)
      ↔ ∃ bs, t.bindings = some bs ∧ ∃ b ∈ bs, b.queue = none ∧ b.exchange = none) ∧
    (∀ e, Connection.declareTopology_v2 t = Except.error e →
      e = "Binding should have either exchange or queue defined") ∧
    (∀ e, Connection.declareTopology_v1 t ≠ Except.error e) := by
  refine ⟨⟨?_, ?_⟩, ?_, ?_⟩
  · rintro ⟨e, he⟩
    cases hb : t.bindings with
    | none =>
      simp only [Connection.declareTopology_v2, hb] at he
      exact absurd he (by simp)
    | some bs =>
      simp only [Connection.declareTopology_v2, hb] at he
      cases hrec : declareBindings_v2 bs with
      | ok acts => rw [hrec] at he; exact absurd he (by simp [Except.map])
      | error e2 =>
        obtain ⟨bb, hbb, h1, h2⟩ := (declareBindings_v2_error bs).mp ⟨e2, hrec⟩
        exact ⟨bs, rfl, bb, hbb, h1, h2⟩
  · rintro ⟨bs2, hbs2, bb, hbb, h1, h2⟩
    obtain ⟨e, he⟩ := (declareBindings_v2_error bs2).mpr ⟨bb, hbb, h1, h2⟩
    refine ⟨e, ?_⟩
    simp only [Connection.declareTopology_v2, hbs2]
    rw [he]
    rfl
  · intro e he
    cases hb : t.bindings with
    | none =>
      simp only [Connection.declareTopology_v2, hb] at he
      exact absurd he (by simp)
    | some bs =>
      simp only [Connection.declareTopology_v2, hb] at he
      cases hrec : declareBindings_v2 bs with
      | ok acts => rw [hrec] at he; exact absurd he (by simp [Except.map])
      | error e2 =>
        rw [hrec] at he
        simp only [Except.map] at he
        rw [← Except.error.inj he]
        exact declareBindings_v2_error_msg bs e2 hrec
  · intro e
    cases hb : t.bindings <;> simp [Connection.declareTopology_v1, hb]

/-- C5 witness: the amended theorem applied to the concrete S6
topology, its hypothesis discharged by evaluation. -/
theorem C5_invalid_binding_witness :
    ("Binding should have either exchange or queue defined" : String)
      = "Binding should have either exchange or queue defined" :=
  (C5_invalid_binding ⟨none, none, some [⟨"ex", none, none, some "", none⟩]⟩).2.1
    "Binding should have either exchange or queue defined" rfl

/-! ### Assertion failure handling
(Exchange.createExchange lines 164-180, Queue.createQueue lines 181-202,
Binding._initialize lines 214-242)

Each catch handler deletes the entity's registry entry and rejects its
`initialized` latch.  The registries are keyed by name (bindings by
binding id); entries carry an opaque object identity.
-/

/-- The connection-level registries observed by the catch handlers,
plus whether the underlying connection is up. -/
structure TopoState where
  exchanges : List (String × Nat)
  queues : List (String × Nat)
  bindings : List (String × Nat)
  connectionUp : Bool
deriving DecidableEq

/-- Embeds the resolution of `Exchange.createExchange`'s assertion
promise: on success the latch resolves; on failure the exchange is
removed from `_connection._exchanges` and the latch rejects with the
error. -/
def Exchange.createExchangeResult (st : TopoState) (name : String)
    (assertion : Except String Unit) : TopoState × LatchState :=
  match assertion with
  | Except.ok _ => (st, LatchState.fulfilled)
  | Except.error err =>
    ({ st with exchanges := st.exchanges.filter (fun p => p.1 != name) },
     LatchState.rejected err)

/-- Embeds the resolution of `Queue.createQueue`'s assertion promise. -/
def Queue.createQueueResult (st : TopoState) (name : String)
    (assertion : Except String Unit) : TopoState × LatchState :=
  match assertion with
  | Except.ok _ => (st, LatchState.fulfilled)
  | Except.error err =>
    ({ st with queues := st.queues.filter (fun p => p.1 != name) },
     LatchState.rejected err)

/-- Embeds the resolution of `Binding._initialize`'s bind promise,
keyed by the binding id. -/
def Binding.initializeResult (st : TopoState) (bid : String)
    (assertion : Except String Unit) : TopoState × LatchState :=
  match assertion with
  | Except.ok _ => (st, LatchState.fulfilled)
  | Except.error err =>
    ({ st with bindings := st.bindings.filter (fun p => p.1 != bid) },
     LatchState.rejected err)

theorem lookup_filter_self {l : List (String × Nat)} {name : String} :
    (l.filter (fun p => p.1 != name)).lookup name = none := by
  induction l with
  | nil => rfl
  | cons a l ih =>
    rw [List.filter]
    cases hba : (a.1 != name) with
    | false => exact ih
    | true =>
      rw [List.lookup]
      have hne : (name == a.1) = false := by
        simp only [bne_iff_ne, ne_eq] at hba
        simp [Ne.symm hba]
      rw [hne]
      exact ih

theorem lookup_filter_other {l : List (String × Nat)} {name other : String}
    (h : other ≠ name) :
    (l.filter (fun p => p.1 != name)).lookup other = l.lookup other := by
  induction l with
  | nil => rfl
  | cons a l ih =>
    rw [List.filter]
    cases hba : (a.1 != name) with
    | false =>
      rw [List.lookup]
      have hne : (other == a.1) = false := by
        simp only [bne_eq_false_iff_eq] at hba
        simp [hba, h]
      rw [hne]
      exact ih
    | true =>
      rw [List.lookup, List.lookup]
      cases hoa : (other == a.1) with
      | true => rfl
      | false => exact ih

/-- C8: when an entity's broker-side assertion fails, exactly that
entity is removed from its registry map, its `initialized` latch
rejects with the assertion error, the other two registry maps and the
other entries of its own map are untouched, and the connection remains
up; a successful assertion resolves the latch and changes nothing. -/
theorem C8_assertion_failure_isolated (st : TopoState) (name other err : String)
    (hother : other ≠ name) :
    ((Exchange.createExchangeResult st name (Except.error err)).2
        = LatchState.rejected err
      ∧ (Exchange.createExchangeResult st name (Except.error err)).1.exchanges.lookup name
        = none
      ∧ (Exchange.createExchangeResult st name (Except.error err)).1.exchanges.lookup other
        = st.exchanges.lookup other
      ∧ (Exchange.createExchangeResult st name (Except.error err)).1.queues = st.queues
      ∧ (Exchange.createExchangeResult st name (Except.error err)).1.bindings = st.bindings
      ∧ (Exchange.createExchangeResult st name (Except.error err)).1.connectionUp
        = st.connectionUp
      ∧ Exchange.createExchangeResult st name (Except.ok ()) = (st, LatchState.fulfilled)) ∧
    ((Queue.createQueueResult st name (Except.error err)).2 = LatchState.rejected err
      ∧ (Queue.createQueueResult st name (Except.error err)).1.queues.lookup name = none
      ∧ (Queue.createQueueResult st name (Except.error err)).1.queues.lookup other
        = st.queues.lookup other
      ∧ (Queue.createQueueResult st name (Except.error err)).1.exchanges = st.exchanges
      ∧ (Queue.createQueueResult st name (Except.error err)).1.bindings = st.bindings
      ∧ (Queue.createQueueResult st name (Except.error err)).1.connectionUp = st.connectionUp
      ∧ Queue.createQueueResult st name (Except.ok ()) = (st, LatchState.fulfilled)) ∧
    ((Binding.initializeResult st name (Except.error err)).2 = LatchState.rejected err
      ∧ (Binding.initializeResult st name (Except.error err)).1.bindings.lookup name = none
      ∧ (Binding.initializeResult st name (Except.error err)).1.bindings.lookup other
        = st.bindings.lookup other
      ∧ (Binding.initializeResult st name (Except.error err)).1.exchanges = st.exchanges
      ∧ (Binding.initializeResult st name (Except.error err)).1.queues = st.queues
      ∧ (Binding.initializeResult st name (Except.error err)).1.connectionUp
        = st.connectionUp
      ∧ Binding.initializeResult st name (Except.ok ()) = (st, LatchState.fulfilled)) := by
  refine ⟨⟨rfl, lookup_filter_self, lookup_filter_other hother, rfl, rfl, rfl, rfl⟩,
    ⟨rfl, lookup_filter_self, lookup_filter_other hother, rfl, rfl, rfl, rfl⟩,
    ⟨rfl, lookup_filter_self, lookup_filter_other hother, rfl, rfl, rfl, rfl⟩⟩

/-- C8 witness: the isolation theorem at a concrete two-entry state. -/
theorem C8_assertion_failure_isolated_witness :
    (Exchange.createExchangeResult ⟨[("a", 1), ("b", 2)], [("q", 3)], [], true⟩ "a"
        (Except.error "boom")).2 = LatchState.rejected "boom"
      ∧ (Exchange.createExchangeResult ⟨[("a", 1), ("b", 2)], [("q", 3)], [], true⟩ "a"
        (Except.error "boom")).1.exchanges.lookup "a" = none
      ∧ (Exchange.createExchangeResult ⟨[("a", 1), ("b", 2)], [("q", 3)], [], true⟩ "a"
        (Except.error "boom")).1.exchanges.lookup "b"
        = (([("a", 1), ("b", 2)] : List (String × Nat)).lookup "b") := by
  have h := (C8_assertion_failure_isolated ⟨[("a", 1), ("b", 2)], [("q", 3)], [], true⟩
    "a" "b" "boom" (by decide)).1
  exact ⟨h.1, h.2.1, h.2.2.1⟩

/-! ### Connection.close and the close-event handler
(Connection.ts lines 222-225 and 323-347 / 578-581 and 682-706)
-/

/-- Steps `Connection.close` performs, in order. -/
inductive CloseStep where
  | setIsClosing (b : Bool) : CloseStep
  | awaitInitialized : CloseStep
  | closeUnderlying : CloseStep
deriving DecidableEq

/-- Embeds `Connection.close`: set `_isClosing = true`, then await
`initialized`, then close the underlying connection. -/
def Connection.close (_isClosing : Bool) : Bool × List CloseStep :=
  (true, [CloseStep.setIsClosing true, CloseStep.awaitInitialized,
    CloseStep.closeUnderlying])

/-- Actions of the `onClose` handler attached by
`attachEventListeners`. -/
inductive HandlerAction where
  | detachCloseListener : HandlerAction
  | rebuildWith (msg : String) : HandlerAction
deriving DecidableEq

/-- Embeds the `onClose` handler: always detach itself; only when
`_isClosing` is false synthesize `Error("Connection closed by remote
host")` and route it into `_rebuildAll` (via `restart`). -/
def Connection.onCloseHandler (isClosing : Bool) : List HandlerAction :=
  HandlerAction.detachCloseListener ::
    (if isClosing then []
     else [HandlerAction.rebuildWith "Connection closed by remote host"])

/-- C9: `close()` emits `setIsClosing true` strictly before awaiting
`initialized` and closing the underlying connection, and leaves
`isClosing = true`; with `isClosing = true` the close-event handler
only detaches itself — it synthesizes no error and triggers no rebuild
— while with `isClosing = false` it routes
`Connection closed by remote host` into the rebuild path. -/
theorem C9_close_guards_rebuild (isClosing0 : Bool) (msg : String) :
    (Connection.close isClosing0).1 = true
      ∧ (Connection.close isClosing0).2
        = [CloseStep.setIsClosing true, CloseStep.awaitInitialized,
           CloseStep.closeUnderlying]
      ∧ Connection.onCloseHandler true = [HandlerAction.detachCloseListener]
      ∧ HandlerAction.rebuildWith msg ∉ Connection.onCloseHandler true
      ∧ Connection.onCloseHandler false
        = [HandlerAction.detachCloseListener,
           HandlerAction.rebuildWith "Connection closed by remote host"] := by
  refine ⟨rfl, rfl, rfl, ?_, rfl⟩
  intro hmem
  rw [show Connection.onCloseHandler true = [HandlerAction.detachCloseListener] from rfl]
    at hmem
  rcases List.mem_singleton.mp hmem with h
  exact HandlerAction.noConfusion h

/-! ### Queue.createQueue channel calls (src/Queue.ts lines 181-202)
-/

/-- The queue options record of the source, every field optional
(`none` models an absent JS property). -/
structure QueueOptions where
  durable : Option Bool := none
  autoDelete : Option Bool := none
  arguments : Option Json := none
  noCreate : Option Bool := none
  exclusive : Option Bool := none
  messageTtl : Option Nat := none
  expires : Option Nat := none
  deadLetterExchange : Option String := none
  maxLength : Option Nat := none
  prefetch : Option Nat := none

/-- Channel calls `createQueue` can make.  `assertQueue` records the
options argument it was invoked with (`none` = no options passed). -/
inductive ChannelOp where
  | assertQueue (name : String) (options : Option QueueOptions) : ChannelOp
  | checkQueue (name : String) : ChannelOp
  | applyPrefetch (count : Nat) : ChannelOp

/-- JS truthiness of the optional numeric `prefetch` field. -/
def prefetchTruthy : Option Nat → Bool
  | some n => n != 0
  | none => false

/-- Embeds `Queue.createQueue`: `this._options.noCreate ?
channel.checkQueue(this._name) : channel.assertQueue(this._name)` —
note `assertQueue` receives only the name — followed by
`channel.prefetch(this._options.prefetch || 0)` when the `prefetch`
option is truthy. -/
def Queue.createQueueOps (name : String) (opts : QueueOptions) : List ChannelOp :=
  (if opts.noCreate.getD false then ChannelOp.checkQueue name
   else ChannelOp.assertQueue name none) ::
    (if prefetchTruthy opts.prefetch then [ChannelOp.applyPrefetch (opts.prefetch.getD 0)]
     else [])

/-- C10: with `noCreate` false, `createQueue` calls `assertQueue` with
only the queue name — no options record is forwarded — and the only
option that affects the channel calls besides `noCreate` is `prefetch`,
applied to the channel after the assertion exactly when it is truthy:
the call list is invariant under changing every other option. -/
theorem C10_assertQueue_ignores_options (name : String) (opts : QueueOptions)
    (h : opts.noCreate.getD false = false) :
    Queue.createQueueOps name opts
      = ChannelOp.assertQueue name none ::
          (if prefetchTruthy opts.prefetch
           then [ChannelOp.applyPrefetch (opts.prefetch.getD 0)] else []) ∧
    (∀ opts' : QueueOptions, opts'.noCreate = opts.noCreate →
      opts'.prefetch = opts.prefetch →
      Queue.createQueueOps name opts' = Queue.createQueueOps name opts) := by
  constructor
  · rw [Queue.createQueueOps, h]
    rfl
  · intro opts' h1 h2
    rw [Queue.createQueueOps, Queue.createQueueOps, h1, h2]

/-- C10 witness: a queue declared with every option set — durable,
autoDelete, arguments, exclusive, messageTtl, expires,
deadLetterExchange, maxLength and prefetch 2 — produces exactly a
name-only `assertQueue` followed by the prefetch application. -/
theorem C10_assertQueue_ignores_options_witness :
    Queue.createQueueOps "q"
        ⟨some true, some true, some Json.null, none, some true, some 5, some 7,
          some "dlx", some 9, some 2⟩
      = [ChannelOp.assertQueue "q" none, ChannelOp.applyPrefetch 2] := by
  have h := (C10_assertQueue_ignores_options "q"
    ⟨some true, some true, some Json.null, none, some true, some 5, some 7,
      some "dlx", some 9, some 2⟩ rfl).1
  rw [h]
  rfl

end Amqp
